import Mathlib

/-!
Verification of the render-data batch storage of `src/renderer/batch.rs`
(fyrox renderer). The Rust code is shallowly embedded: 64-bit machine
integers are `Nat` with explicit `% 2 ^ 64`, `Vec` is `List`, the
`FxHashMap` from batch keys to batch indices is an association list, and
the fallible/panicking paths return `Option`. The two hash functions the
code calls into are embedded from their well-known definitions: `FxHasher`
(fxhash crate: rotate-xor-multiply over 64-bit words) and `DefaultHasher`
(std: SipHash-1-3 with zero keys). Floating-point scalars are embedded as
exact rationals where only data is carried, and as real numbers where the
LOD visibility arithmetic (a Euclidean distance) is computed.
-/

/-! ## 64-bit word arithmetic -/

/-- Left rotation of a 64-bit word (represented as a `Nat` below `2 ^ 64`),
written arithmetically: the top `r` bits move to the bottom. -/
def rotl64 (r w : Nat) : Nat :=
  (w % 2 ^ (64 - r)) * 2 ^ r + w / 2 ^ (64 - r)

/-- Wrapping 64-bit addition. -/
def wadd64 (a b : Nat) : Nat := (a + b) % 2 ^ 64

/-! ## FxHasher (fxhash crate)

`RenderDataBatchStorage::push` and `push_triangles` compute their batch
keys with `FxHasher`. On a 64-bit target every `write_uN` call feeds one
word into `hash = (hash.rotate_left(5) ^ word).wrapping_mul(SEED)`, with
initial state 0, and `finish` returns the state. -/

/-- The fxhash 64-bit multiplier `0x51_7c_c1_b7_27_22_0a_95`. -/
def fxSeed : Nat := 0x517cc1b727220a95

/-- The modular inverse of `fxSeed` modulo `2 ^ 64` (used only in proofs,
to invert the multiplication step). -/
def fxSeedInv : Nat := 0x2040003d780970bd

/-- One `FxHasher` word step: rotate left by 5, xor the word in, multiply
by the seed (wrapping). -/
def fxStep (h x : Nat) : Nat := (rotl64 5 h ^^^ x) * fxSeed % 2 ^ 64

/-- `Hasher::write_u8` for `FxHasher`: the byte is zero-extended to a word. -/
def fxWrite8 (h x : Nat) : Nat := fxStep h (x % 2 ^ 8)

/-- `Hasher::write_u32` for `FxHasher`. -/
def fxWrite32 (h x : Nat) : Nat := fxStep h (x % 2 ^ 32)

/-- `Hasher::write_u64` for `FxHasher` on a 64-bit target. -/
def fxWrite64 (h x : Nat) : Nat := fxStep h (x % 2 ^ 64)

/-! ## SipHash-1-3 (std `DefaultHasher`)

`PersistentIdentifier::new_combined` hashes with `DefaultHasher`, which is
SipHash-1-3 keyed with `k0 = k1 = 0`. The inputs written (a `u32` pool
index, a `u32` generation, a `u64` surface-data key and a `usize` index)
total 24 bytes, i.e. exactly three aligned little-endian 64-bit words, so
the byte-buffering of the std hasher reduces to word-at-a-time
compression followed by the final length word `24 <<< 56`. -/

structure SipState where
  v0 : Nat
  v1 : Nat
  v2 : Nat
  v3 : Nat

/-- One SipHash round. -/
def sipRound (s : SipState) : SipState :=
  let v0 := wadd64 s.v0 s.v1
  let v1 := rotl64 13 s.v1
  let v1 := v1 ^^^ v0
  let v0 := rotl64 32 v0
  let v2 := wadd64 s.v2 s.v3
  let v3 := rotl64 16 s.v3
  let v3 := v3 ^^^ v2
  let v0 := wadd64 v0 v3
  let v3 := rotl64 21 v3
  let v3 := v3 ^^^ v0
  let v2 := wadd64 v2 v1
  let v1 := rotl64 17 v1
  let v1 := v1 ^^^ v2
  let v2 := rotl64 32 v2
  ⟨v0, v1, v2, v3⟩

/-- The SipHash initial state for keys `k0 = k1 = 0` (`DefaultHasher::new`). -/
def sipInitState : SipState :=
  ⟨0x736f6d6570736575, 0x646f72616e646f6d, 0x6c7967656e657261, 0x7465646279746573⟩

/-- Compression of one message word (SipHash-1-3: one round per word). -/
def sipCompress (s : SipState) (m : Nat) : SipState :=
  let s := { s with v3 := s.v3 ^^^ m }
  let s := sipRound s
  { s with v0 := s.v0 ^^^ m }

/-- SipHash finalization (SipHash-1-3: three rounds). -/
def sipFinish (s : SipState) : Nat :=
  let s := { s with v2 := s.v2 ^^^ 0xff }
  let s := sipRound (sipRound (sipRound s))
  s.v0 ^^^ s.v1 ^^^ s.v2 ^^^ s.v3

/-- SipHash-1-3 with zero keys over a stream of full 64-bit words whose
total byte length is `len` (a multiple of 8, so the final block carries
only the length byte). -/
def sipHash13Words (ws : List Nat) (len : Nat) : Nat :=
  sipFinish (sipCompress (ws.foldl sipCompress sipInitState) (len % 2 ^ 8 * 2 ^ 56))

/-! ## Data model (`src/renderer/batch.rs` and its interface types) -/

/-- `Handle<Node>` (fyrox-core pool handle): a `u32` slot index and a `u32`
generation. Its `Hash` implementation writes the index then the
generation. -/
structure Handle where
  index : Nat
  generation : Nat
deriving DecidableEq

/-- `RenderPath` (scene::mesh): a `#[repr(u32)]`-style enum with
discriminants `Deferred = 0`, `Forward = 1`. -/
inductive RenderPath where
  | Deferred
  | Forward
deriving DecidableEq

/-- The `u32` discriminant used by `render_path as u32` in the key hashes. -/
def RenderPath.disc : RenderPath → Nat
  | .Deferred => 0
  | .Forward => 1

/-- `SharedMaterial`, specified at its interface boundary: a stable 64-bit
identity `key()`. -/
structure SharedMaterial where
  key : Nat
deriving DecidableEq

/-- A 4x4 matrix of exact scalars (embedding of `Matrix4<f32>` where it is
only carried as data, never computed with). -/
def Matrix4 := Fin 4 → Fin 4 → ℚ

/-- `Matrix4::identity()`. -/
def Matrix4.identity : Matrix4 := fun i j => if i = j then 1 else 0

/-- `TriangleDefinition`: three vertex indices. -/
structure TriangleDefinition where
  i0 : Nat
  i1 : Nat
  i2 : Nat
deriving DecidableEq

/-- Modelled from the spec: `TriangleDefinition::add` (fyrox-core math, not
under `src/`) adds the given offset to every vertex index referenced. -/
def TriangleDefinition.add (t : TriangleDefinition) (n : Nat) : TriangleDefinition :=
  ⟨t.i0 + n, t.i1 + n, t.i2 + n⟩

/-- Modelled from the spec: a vertex buffer (fyrox-core mesh buffer, not
under `src/`) stores a vertex-layout type identity and the vertices; the
vertex payloads themselves are opaque to the batching code. The layout
tag embeds `TypeId::of::<T>()` as an abstract 64-bit value. -/
structure VertexBuffer where
  layout : Nat
  vertices : List Nat
deriving DecidableEq

/-- `VertexBuffer::vertex_count`. -/
def VertexBuffer.vertex_count (vb : VertexBuffer) : Nat := vb.vertices.length

/-- Modelled from the spec: a triangle buffer holding triangle index
definitions, supporting append. -/
structure TriangleBuffer where
  triangles : List TriangleDefinition
deriving DecidableEq

/-- `SurfaceData`: a vertex buffer plus a triangle (geometry) buffer. -/
structure SurfaceData where
  vertex_buffer : VertexBuffer
  geometry_buffer : TriangleBuffer
deriving DecidableEq

/-- `SurfaceSharedData`, specified at its interface boundary: a stable
64-bit identity `key()` plus scoped-exclusive access (`lock`) to the
underlying `SurfaceData`. The embedding is value-semantic: each batch
owns the value it stores. -/
structure SurfaceSharedData where
  key : Nat
  surface : SurfaceData
deriving DecidableEq

/-- `PersistentIdentifier(pub u64)`. -/
structure PersistentIdentifier where
  val : Nat
deriving DecidableEq

/-- `PersistentIdentifier::new_combined`: a `DefaultHasher` over the node
handle (index then generation, two `u32`s), the surface data's 64-bit
key, and the `usize` index — 24 bytes, three little-endian words. -/
def PersistentIdentifier.new_combined
    (surface_data : SurfaceSharedData) (handle : Handle) (index : Nat) :
    PersistentIdentifier :=
  ⟨sipHash13Words
    [handle.index % 2 ^ 32 + handle.generation % 2 ^ 32 * 2 ^ 32,
     surface_data.key % 2 ^ 64,
     index % 2 ^ 64] 24⟩

/-- `ElementRange` (framework geometry buffer): full range or a specific
sub-range; `Default` is `Full`. -/
inductive ElementRange where
  | Full
  | Specific (offset : Nat) (count : Nat)
deriving DecidableEq

/-- `TimeToLive` (renderer geometry cache): a duration in seconds. -/
structure TimeToLive where
  seconds : ℚ
deriving DecidableEq

/-- Modelled from the spec: `TimeToLive::default()` (renderer cache, not
under `src/`) is some fixed positive lifetime; no claim depends on its
value, only on the temporary batches using `TimeToLive(0.0)` instead. -/
def timeToLiveDefault : TimeToLive := ⟨20⟩

/-- `SurfaceInstanceData`. -/
structure SurfaceInstanceData where
  world_transform : Matrix4
  bone_matrices : List Matrix4
  depth_offset : ℚ
  blend_shapes_weights : List ℚ
  element_range : ElementRange
  persistent_identifier : PersistentIdentifier
  node_handle : Handle

/-- `RenderDataBatch`. -/
structure RenderDataBatch where
  data : SurfaceSharedData
  time_to_live : TimeToLive
  instances : List SurfaceInstanceData
  material : SharedMaterial
  is_skinned : Bool
  render_path : RenderPath
  decal_layer_index : Nat
  sort_index : Nat

/-- `RenderDataBatchStorage`. The extra `next_data_key` field models the
allocator: it supplies the fresh, unique 64-bit identity that a newly
created `SurfaceSharedData` receives in `push_triangles`. -/
structure RenderDataBatchStorage where
  batch_map : List (Nat × Nat)
  batches : List RenderDataBatch
  next_data_key : Nat

/-- `RenderDataBatchStorage::default()`. -/
def RenderDataBatchStorage.empty : RenderDataBatchStorage := ⟨[], [], 0⟩

/-- Lookup in the key-to-index map (`FxHashMap::get`). -/
def mapFind : List (Nat × Nat) → Nat → Option Nat
  | [], _ => none
  | (k, v) :: t, q => if k = q then some v else mapFind t q

/-- In-place update of one element of a `Vec` (`Vec` index mutation /
`get_mut`). Out-of-range indices leave the list unchanged; the code only
uses indices it just validated. -/
def listModify (f : α → α) : Nat → List α → List α
  | _, [] => []
  | 0, x :: t => f x :: t
  | n + 1, x :: t => x :: listModify f n t

/-- The batch key computed by `RenderDataBatchStorage::push`: an
`FxHasher` over material key, surface-data key, skinned flag, decal layer
index and render-path discriminant, in that order. -/
def pushKey (material : SharedMaterial) (data : SurfaceSharedData)
    (is_skinned : Bool) (decal_layer_index : Nat) (render_path : RenderPath) : Nat :=
  fxWrite32
    (fxWrite8
      (fxWrite8
        (fxWrite64 (fxWrite64 0 material.key) data.key)
        (if is_skinned then 1 else 0))
      decal_layer_index)
    render_path.disc

/-- The batch key computed by `RenderDataBatchStorage::push_triangles`:
as `pushKey` but with the vertex-layout type identity in place of the
surface-data key (the geometry does not exist yet). -/
def pushTrianglesKey (material : SharedMaterial) (vertex_type_id : Nat)
    (is_skinned : Bool) (decal_layer_index : Nat) (render_path : RenderPath) : Nat :=
  fxWrite32
    (fxWrite8
      (fxWrite8
        (fxWrite64 (fxWrite64 0 material.key) vertex_type_id)
        (if is_skinned then 1 else 0))
      decal_layer_index)
    render_path.disc

/-- `RenderDataBatchStorage::push`: find or create the batch for the
instance-push key, then append the surface instance to it. -/
def RenderDataBatchStorage.push (s : RenderDataBatchStorage)
    (data : SurfaceSharedData) (material : SharedMaterial)
    (render_path : RenderPath) (decal_layer_index : Nat) (sort_index : Nat)
    (instance_data : SurfaceInstanceData) : RenderDataBatchStorage :=
  let is_skinned := !instance_data.bone_matrices.isEmpty
  let key := pushKey material data is_skinned decal_layer_index render_path
  let found := mapFind s.batch_map key
  let s1 : RenderDataBatchStorage :=
    match found with
    | some _ => s
    | none =>
      { s with
        batch_map := (key, s.batches.length) :: s.batch_map
        batches := s.batches ++
          [{ data := data
             sort_index := sort_index
             instances := []
             material := material
             is_skinned := is_skinned
             render_path := render_path
             decal_layer_index := decal_layer_index
             time_to_live := timeToLiveDefault }] }
  let idx :=
    match found with
    | some i => i
    | none => s.batches.length
  { s1 with
    batches := listModify
      (fun b => { b with instances := b.instances ++ [instance_data] }) idx s1.batches }

/-- The placeholder instance seeded into a batch freshly created by
`push_triangles`: identity transform, defaults everywhere else, and a
persistent identifier combining the new geometry, the node handle and
index zero. -/
def placeholderInstance (data : SurfaceSharedData) (node_handle : Handle) :
    SurfaceInstanceData :=
  { world_transform := Matrix4.identity
    bone_matrices := []
    depth_offset := 0
    blend_shapes_weights := []
    element_range := ElementRange.Full
    persistent_identifier := PersistentIdentifier.new_combined data node_handle 0
    node_handle := node_handle }

/-- `RenderDataBatchStorage::push_triangles`: find or create the batch for
the raw-append key (a fresh batch gets empty buffers, a one-frame
time-to-live and exactly one placeholder instance), then append the
vertices and the offset triangles to the batch's geometry. `none` models
the two panicking paths: the `unwrap` of a dangling batch index and the
`expect("Vertex types mismatch!")` on a vertex-layout mismatch. -/
def RenderDataBatchStorage.push_triangles (s : RenderDataBatchStorage)
    (vertex_type_id : Nat) (vertices : List Nat)
    (local_triangles : List TriangleDefinition) (material : SharedMaterial)
    (render_path : RenderPath) (decal_layer_index : Nat) (sort_index : Nat)
    (is_skinned : Bool) (node_handle : Handle) :
    Option RenderDataBatchStorage :=
  let key := pushTrianglesKey material vertex_type_id is_skinned decal_layer_index render_path
  let found := mapFind s.batch_map key
  let s1 : RenderDataBatchStorage :=
    match found with
    | some _ => s
    | none =>
      let data : SurfaceSharedData := ⟨s.next_data_key, ⟨⟨vertex_type_id, []⟩, ⟨[]⟩⟩⟩
      { s with
        next_data_key := s.next_data_key + 1
        batch_map := (key, s.batches.length) :: s.batch_map
        batches := s.batches ++
          [{ data := data
             sort_index := sort_index
             instances := [placeholderInstance data node_handle]
             material := material
             is_skinned := is_skinned
             render_path := render_path
             decal_layer_index := decal_layer_index
             time_to_live := ⟨0⟩ }] }
  let idx :=
    match found with
    | some i => i
    | none => s.batches.length
  match s1.batches.get? idx with
  | none => none
  | some b =>
    if b.data.surface.vertex_buffer.layout = vertex_type_id then
      let last_vertex_index := b.data.surface.vertex_buffer.vertex_count
      some { s1 with
        batches := listModify
          (fun b =>
            { b with
              data := { b.data with
                surface :=
                  { vertex_buffer := { b.data.surface.vertex_buffer with
                      vertices := b.data.surface.vertex_buffer.vertices ++ vertices }
                    geometry_buffer := ⟨b.data.surface.geometry_buffer.triangles ++
                      local_triangles.map
                        (fun t => TriangleDefinition.add t last_vertex_index)⟩ } } })
          idx s1.batches }
    else
      none

/-- `RenderDataBatchStorage::sort`: sort the batch list by each batch's
sort index (`sort_unstable_by_key`; modelled by merge sort — any sorting
algorithm yields the sortedness the code guarantees). -/
def RenderDataBatchStorage.sort (s : RenderDataBatchStorage) : RenderDataBatchStorage :=
  { s with batches := s.batches.mergeSort (fun a b => a.sort_index ≤ b.sort_index) }

/-! ## Call-sequence scaffolding

Bundled argument records for the two population operations, so that
properties over sequences of calls can be stated. -/

/-- The arguments of one `push` call. -/
structure PushArgs where
  data : SurfaceSharedData
  material : SharedMaterial
  render_path : RenderPath
  decal_layer_index : Nat
  sort_index : Nat
  instance_data : SurfaceInstanceData

/-- The skinned flag `push` derives from the instance's bone matrices. -/
def PushArgs.isSkinned (a : PushArgs) : Bool := !a.instance_data.bone_matrices.isEmpty

/-- The batch key of one `push` call. -/
def PushArgs.key (a : PushArgs) : Nat :=
  pushKey a.material a.data a.isSkinned a.decal_layer_index a.render_path

/-- The five-component identity a `push` call groups by: material
identity, geometry identity, skinned flag, decal layer index, render
path. -/
def PushArgs.tuple (a : PushArgs) : Nat × Nat × Bool × Nat × RenderPath :=
  (a.material.key, a.data.key, a.isSkinned, a.decal_layer_index, a.render_path)

/-- Apply one bundled `push` call. -/
def applyPush (s : RenderDataBatchStorage) (a : PushArgs) : RenderDataBatchStorage :=
  s.push a.data a.material a.render_path a.decal_layer_index a.sort_index a.instance_data

/-- Apply a sequence of `push` calls. -/
def applyPushes (s : RenderDataBatchStorage) (l : List PushArgs) : RenderDataBatchStorage :=
  l.foldl applyPush s

/-- The index (into the batch list) of the batch that a `push` call on
storage `s` places its instance in: the mapped index if the key is
present, else the index of the batch the call creates. -/
def pushTargetIndex (s : RenderDataBatchStorage) (a : PushArgs) : Nat :=
  match mapFind s.batch_map a.key with
  | some i => i
  | none => s.batches.length

/-- The batch indices targeted by each call of a `push` sequence. -/
def pushTargets : RenderDataBatchStorage → List PushArgs → List Nat
  | _, [] => []
  | s, a :: rest => pushTargetIndex s a :: pushTargets (applyPush s a) rest

/-- The arguments of one `push_triangles` call. -/
structure PushTrianglesArgs where
  vertex_type_id : Nat
  vertices : List Nat
  local_triangles : List TriangleDefinition
  material : SharedMaterial
  render_path : RenderPath
  decal_layer_index : Nat
  sort_index : Nat
  is_skinned : Bool
  node_handle : Handle

/-- The batch key of one `push_triangles` call. -/
def PushTrianglesArgs.key (a : PushTrianglesArgs) : Nat :=
  pushTrianglesKey a.material a.vertex_type_id a.is_skinned a.decal_layer_index a.render_path

/-- Apply one bundled `push_triangles` call. -/
def applyPushTriangles (s : RenderDataBatchStorage) (a : PushTrianglesArgs) :
    Option RenderDataBatchStorage :=
  s.push_triangles a.vertex_type_id a.vertices a.local_triangles a.material
    a.render_path a.decal_layer_index a.sort_index a.is_skinned a.node_handle

/-- Apply a sequence of `push_triangles` calls, propagating the panic. -/
def applyPushTrianglesSeq (s : RenderDataBatchStorage) (l : List PushTrianglesArgs) :
    Option RenderDataBatchStorage :=
  l.foldlM applyPushTriangles s

/-- One storage operation a scene node may perform against the render
context during traversal (external node-contribution interface). -/
inductive StorageOp where
  | push (a : PushArgs)
  | pushTriangles (a : PushTrianglesArgs)

/-- Apply one storage operation (`push` is infallible; `push_triangles`
may panic). -/
def applyOp (s : RenderDataBatchStorage) : StorageOp → Option RenderDataBatchStorage
  | .push a => some (applyPush s a)
  | .pushTriangles a => applyPushTriangles s a

/-- Apply a sequence of storage operations. -/
def applyOps (s : RenderDataBatchStorage) (ops : List StorageOp) :
    Option RenderDataBatchStorage :=
  ops.foldlM applyOp s

/-! ## Graph, observer, LOD filter and `from_graph`

The scene graph is specified at its interface boundary: a pool of slots,
each with a generation and an optional node; a node carries its global
position and an optional LOD group. Floating-point scalars of this part
are embedded as real numbers because the LOD test computes a Euclidean
distance. -/

/-- `ObserverInfo`. -/
structure ObserverInfo where
  observer_position : ℝ × ℝ × ℝ
  z_near : ℝ
  z_far : ℝ
  view_matrix : Fin 4 → Fin 4 → ℝ
  projection_matrix : Fin 4 → Fin 4 → ℝ

/-- A level of an LOD group: a normalized-distance range (`begin()` and
`end()`, named `lbegin`/`lend` here) and the object handles it governs. -/
structure LevelOfDetail where
  lbegin : ℝ
  lend : ℝ
  objects : List Handle

/-- An LOD group: a list of levels. -/
structure LodGroup where
  levels : List LevelOfDetail

/-- A scene node, as the batching code observes it: a global position, an
optional LOD group. -/
structure GraphNode where
  global_position : ℝ × ℝ × ℝ
  lod_group : Option LodGroup

/-- One slot of the graph's pool: a generation and an optional occupant. -/
structure PoolRecord where
  generation : Nat
  payload : Option GraphNode

/-- The scene graph: a pool of slots. -/
structure Graph where
  records : List PoolRecord

/-- `Graph::capacity`: the number of slots. -/
def Graph.capacity (g : Graph) : Nat := g.records.length

/-- `Graph::linear_iter`: the occupied nodes, in slot order. -/
def Graph.linear_iter (g : Graph) : List GraphNode :=
  g.records.filterMap (fun r => r.payload)

/-- `Graph::pair_iter`: (handle, node) pairs of the occupied slots. -/
def Graph.pair_iter (g : Graph) : List (Handle × GraphNode) :=
  g.records.enum.filterMap
    (fun p => p.2.payload.map (fun n => (⟨p.1, p.2.generation⟩, n)))

/-- `Graph::try_get`: the node at the handle's slot, provided the slot
exists and its generation matches; invalid or stale handles give `none`. -/
def Graph.try_get (g : Graph) (h : Handle) : Option GraphNode :=
  match g.records.get? h.index with
  | none => none
  | some r => if r.generation = h.generation then r.payload else none

/-- Modelled from the spec: `metric_distance` (nalgebra, external) is the
Euclidean distance between two points. -/
noncomputable def metric_distance (a b : ℝ × ℝ × ℝ) : ℝ :=
  Real.sqrt ((a.1 - b.1) ^ 2 + (a.2.1 - b.2.1) ^ 2 + (a.2.2 - b.2.2) ^ 2)

/-- The visibility flag `from_graph` computes for one object of one LOD
level: the observer distance, normalized into the near/far range, must
lie within the level's `begin()`/`end()` range (both bounds inclusive). -/
noncomputable def lodVisible (o : ObserverInfo) (level : LevelOfDetail)
    (object_ref : GraphNode) : Bool :=
  let distance := metric_distance o.observer_position object_ref.global_position
  let z_range := o.z_far - o.z_near
  let normalized_distance := (distance - o.z_near) / z_range
  decide (normalized_distance ≥ level.lbegin) && decide (normalized_distance ≤ level.lend)

/-- The LOD visibility filter of `from_graph`: one flag per slot, default
`true`; every node's LOD group writes, level by level and object by
object, the visibility flag into the slot of each validly referenced
object (later writes overwrite earlier ones). -/
noncomputable def lodFilter (g : Graph) (o : ObserverInfo) : List Bool :=
  g.linear_iter.foldl
    (fun acc node =>
      match node.lod_group with
      | none => acc
      | some lod_group =>
        lod_group.levels.foldl
          (fun acc level =>
            level.objects.foldl
              (fun acc object =>
                match g.try_get object with
                | none => acc
                | some object_ref => acc.set object.index (lodVisible o level object_ref))
              acc)
          acc)
    (List.replicate g.capacity true)

/-- `RenderDataBatchStorage::from_graph`: compute the LOD filter, then
visit every (handle, node) pair whose filter bit is set, applying that
node's contribution (`collect_render_data`, the external node interface,
given here as the function `collect`) to the storage, and finally sort.
The frustum and the render context carry no storage effect of their own,
so the contribution interface is its sequence of storage operations.
`none` models a panic inside a contribution's `push_triangles`. -/
noncomputable def from_graph (collect : Handle → GraphNode → List StorageOp)
    (g : Graph) (o : ObserverInfo) : Option RenderDataBatchStorage :=
  let lod_filter := lodFilter g o
  let visited := g.pair_iter.filter (fun p => lod_filter.getD p.1.index true)
  match applyOps RenderDataBatchStorage.empty (visited.flatMap (fun p => collect p.1 p.2)) with
  | none => none
  | some s => some s.sort

/-! ## Basic lemmas about the map and the list updates -/

theorem mapFind_eq_none_iff (m : List (Nat × Nat)) (k : Nat) :
    mapFind m k = none ↔ ∀ p ∈ m, p.1 ≠ k := by
  induction m with
  | nil => simp [mapFind]
  | cons p t ih =>
    obtain ⟨pk, pv⟩ := p
    by_cases h : pk = k <;> simp [mapFind, h, ih]

theorem mapFind_mem {m : List (Nat × Nat)} {k i : Nat}
    (h : mapFind m k = some i) : (k, i) ∈ m := by
  induction m with
  | nil => simp [mapFind] at h
  | cons p t ih =>
    obtain ⟨pk, pv⟩ := p
    by_cases hk : pk = k
    · subst hk
      simp [mapFind] at h
      subst h
      exact List.mem_cons_self _ _
    · simp [mapFind, hk] at h
      exact List.mem_cons_of_mem _ (ih h)

theorem mapFind_cons_ne {m : List (Nat × Nat)} {k q v : Nat} (h : k ≠ q) :
    mapFind ((k, v) :: m) q = mapFind m q := by
  simp [mapFind, h]

theorem mapFind_cons_self {m : List (Nat × Nat)} {k v : Nat} :
    mapFind ((k, v) :: m) k = some v := by
  simp [mapFind]

@[simp] theorem listModify_length (f : α → α) (n : Nat) (l : List α) :
    (listModify f n l).length = l.length := by
  induction l generalizing n with
  | nil => simp [listModify]
  | cons x t ih =>
    cases n with
    | zero => simp [listModify]
    | succ n => simp [listModify, ih]

theorem get?_listModify_self (f : α → α) (n : Nat) (l : List α) :
    (listModify f n l).get? n = (l.get? n).map f := by
  induction l generalizing n with
  | nil => simp [listModify]
  | cons x t ih =>
    cases n with
    | zero => simp [listModify]
    | succ n => simpa [listModify] using ih n

theorem get?_listModify_ne (f : α → α) {m n : Nat} (l : List α) (h : m ≠ n) :
    (listModify f n l).get? m = l.get? m := by
  induction l generalizing m n with
  | nil => simp [listModify]
  | cons x t ih =>
    cases n with
    | zero =>
      cases m with
      | zero => exact absurd rfl h
      | succ m => simp [listModify]
    | succ n =>
      cases m with
      | zero => simp [listModify]
      | succ m =>
        simp only [listModify, List.get?]
        exact ih (fun he => h (by simp [he]))

theorem listModify_append_last (f : α → α) (l : List α) (x : α) :
    listModify f l.length (l ++ [x]) = l ++ [f x] := by
  induction l with
  | nil => simp [listModify]
  | cons y t ih => simp [listModify, ih]

/-! ## Unfolding lemmas for `push` -/

/-- The batch that a key-miss `push` call creates, before the instance is
appended. -/
def pushCreatedBatch (a : PushArgs) : RenderDataBatch :=
  { data := a.data
    time_to_live := timeToLiveDefault
    instances := []
    material := a.material
    is_skinned := a.isSkinned
    render_path := a.render_path
    decal_layer_index := a.decal_layer_index
    sort_index := a.sort_index }

theorem applyPush_found {s : RenderDataBatchStorage} {a : PushArgs} {i : Nat}
    (h : mapFind s.batch_map a.key = some i) :
    applyPush s a =
      { s with
        batches := listModify
          (fun b => { b with instances := b.instances ++ [a.instance_data] }) i s.batches } := by
  simp only [applyPush, RenderDataBatchStorage.push]
  have hk : pushKey a.material a.data (!a.instance_data.bone_matrices.isEmpty)
      a.decal_layer_index a.render_path = a.key := rfl
  rw [hk, h]

theorem applyPush_new {s : RenderDataBatchStorage} {a : PushArgs}
    (h : mapFind s.batch_map a.key = none) :
    applyPush s a =
      { batch_map := (a.key, s.batches.length) :: s.batch_map
        batches := s.batches ++
          [{ pushCreatedBatch a with instances := [a.instance_data] }]
        next_data_key := s.next_data_key } := by
  simp only [applyPush, RenderDataBatchStorage.push]
  have hk : pushKey a.material a.data (!a.instance_data.bone_matrices.isEmpty)
      a.decal_layer_index a.render_path = a.key := rfl
  rw [hk, h]
  simp only [listModify_append_last]
  rfl

@[simp] theorem applyPush_batches_length (s : RenderDataBatchStorage) (a : PushArgs) :
    (applyPush s a).batches.length =
      match mapFind s.batch_map a.key with
      | some _ => s.batches.length
      | none => s.batches.length + 1 := by
  cases h : mapFind s.batch_map a.key with
  | some i => rw [applyPush_found h]; simp
  | none => rw [applyPush_new h]; simp

theorem applyPush_map_found {s : RenderDataBatchStorage} {a : PushArgs} {i : Nat}
    (h : mapFind s.batch_map a.key = some i) :
    (applyPush s a).batch_map = s.batch_map := by
  rw [applyPush_found h]

theorem applyPush_map_new {s : RenderDataBatchStorage} {a : PushArgs}
    (h : mapFind s.batch_map a.key = none) :
    (applyPush s a).batch_map = (a.key, s.batches.length) :: s.batch_map := by
  rw [applyPush_new h]

/-! ## The key-map invariant -/

/-- Well-formedness of the key-to-index map maintained by the two
population paths: every mapped index is a valid batch index, no two
entries share an index, and no two entries share a key. -/
def MapOk (s : RenderDataBatchStorage) : Prop :=
  (∀ p ∈ s.batch_map, p.2 < s.batches.length) ∧
  (s.batch_map.map Prod.snd).Nodup ∧
  (s.batch_map.map Prod.fst).Nodup

theorem mapOk_empty : MapOk RenderDataBatchStorage.empty := by
  refine ⟨?_, ?_, ?_⟩ <;> simp [RenderDataBatchStorage.empty]

theorem mapOk_inj {s : RenderDataBatchStorage} (hs : MapOk s) {k1 k2 i1 i2 : Nat}
    (h1 : mapFind s.batch_map k1 = some i1) (h2 : mapFind s.batch_map k2 = some i2)
    (hne : k1 ≠ k2) : i1 ≠ i2 := by
  intro he
  subst he
  have m1 := mapFind_mem h1
  have m2 := mapFind_mem h2
  have heq : ((k1, i1) : Nat × Nat) = (k2, i1) :=
    List.inj_on_of_nodup_map hs.2.1 m1 m2 rfl
  exact hne (congrArg Prod.fst heq)

theorem mapOk_lt {s : RenderDataBatchStorage} (hs : MapOk s) {k i : Nat}
    (h : mapFind s.batch_map k = some i) : i < s.batches.length :=
  hs.1 _ (mapFind_mem h)

theorem mapOk_applyPush {s : RenderDataBatchStorage} (hs : MapOk s) (a : PushArgs) :
    MapOk (applyPush s a) := by
  cases h : mapFind s.batch_map a.key with
  | some i =>
    rw [applyPush_found h]
    exact ⟨fun p hp => by simpa using hs.1 p hp, hs.2.1, hs.2.2⟩
  | none =>
    rw [applyPush_new h]
    refine ⟨?_, ?_, ?_⟩
    · intro p hp
      rcases List.mem_cons.mp hp with rfl | hp
      · simp
      · simp only [List.length_append, List.length_cons, List.length_nil]
        exact Nat.lt_succ_of_lt (hs.1 p hp)
    · refine List.Nodup.cons ?_ hs.2.1
      intro hmem
      simp only [List.mem_map] at hmem
      obtain ⟨p, hp, hv⟩ := hmem
      exact absurd (hv ▸ hs.1 p hp) (Nat.lt_irrefl _)
    · refine List.Nodup.cons ?_ hs.2.2
      intro hmem
      simp only [List.mem_map] at hmem
      obtain ⟨p, hp, hv⟩ := hmem
      exact absurd hv ((mapFind_eq_none_iff _ _).mp h p hp)

/-! ## Stability of key lookups and targets across `push` calls -/

theorem mapFind_applyPush_mono {s : RenderDataBatchStorage} {a : PushArgs} {k i : Nat}
    (h : mapFind s.batch_map k = some i) :
    mapFind (applyPush s a).batch_map k = some i := by
  cases ha : mapFind s.batch_map a.key with
  | some j => rw [applyPush_map_found ha]; exact h
  | none =>
    rw [applyPush_map_new ha]
    have hne : a.key ≠ k := by
      intro he
      rw [he] at ha
      rw [ha] at h
      exact Option.noConfusion h
    rw [mapFind_cons_ne hne]
    exact h

theorem mapFind_after_push (s : RenderDataBatchStorage) (a : PushArgs) :
    mapFind (applyPush s a).batch_map a.key = some (pushTargetIndex s a) := by
  cases h : mapFind s.batch_map a.key with
  | some i =>
    rw [applyPush_map_found h]
    simp [pushTargetIndex, h]
  | none =>
    rw [applyPush_map_new h]
    simp [pushTargetIndex, h, mapFind_cons_self]

theorem pushTargetIndex_lt (s : RenderDataBatchStorage) (a : PushArgs) (hs : MapOk s) :
    pushTargetIndex s a < (applyPush s a).batches.length := by
  rw [applyPush_batches_length]
  cases h : mapFind s.batch_map a.key with
  | some i => simp only [pushTargetIndex, h]; exact mapOk_lt hs h
  | none => simp [pushTargetIndex, h]

theorem pushTargets_length (s : RenderDataBatchStorage) (l : List PushArgs) :
    (pushTargets s l).length = l.length := by
  induction l generalizing s with
  | nil => rfl
  | cons a t ih => simp [pushTargets, ih]

/-- Once a key is mapped to an index, every later call of a `push`
sequence that carries that key targets exactly that index. -/
theorem pushTargets_stable {l : List PushArgs} {s : RenderDataBatchStorage} {k i : Nat}
    (h : mapFind s.batch_map k = some i) :
    ∀ j (hj : j < l.length), (l.get ⟨j, hj⟩).key = k →
      (pushTargets s l).get? j = some i := by
  induction l generalizing s with
  | nil => intro j hj; simp at hj
  | cons a t ih =>
    intro j hj hk
    cases j with
    | zero =>
      simp only [List.get] at hk
      simp [pushTargets, pushTargetIndex, hk, h]
    | succ j =>
      simp only [pushTargets, List.get?]
      exact ih (mapFind_applyPush_mono h) j (by simpa using hj) (by simpa using hk)

/-! ## Instance counting across `push` sequences -/

theorem mapFind_applyPush_ne {s : RenderDataBatchStorage} {a : PushArgs} {k : Nat}
    (h : a.key ≠ k) :
    mapFind (applyPush s a).batch_map k = mapFind s.batch_map k := by
  cases ha : mapFind s.batch_map a.key with
  | some j => rw [applyPush_map_found ha]
  | none => rw [applyPush_map_new ha, mapFind_cons_ne h]

theorem applyPush_get?_untouched {s : RenderDataBatchStorage} (hs : MapOk s)
    {a : PushArgs} {k i : Nat} (hk : mapFind s.batch_map k = some i) (h : a.key ≠ k) :
    (applyPush s a).batches.get? i = s.batches.get? i := by
  cases ha : mapFind s.batch_map a.key with
  | some j =>
    rw [applyPush_found ha]
    simp only
    exact get?_listModify_ne _ _ (mapOk_inj hs hk ha (fun he => h he.symm))
  | none =>
    rw [applyPush_new ha]
    simp only
    exact List.get?_append (mapOk_lt hs hk)

/-- The instance count of the batch currently mapped for a key (0 if the
key is not yet mapped). -/
def curCount (s : RenderDataBatchStorage) (k : Nat) : Nat :=
  match mapFind s.batch_map k with
  | some i => ((s.batches.get? i).map (fun b => b.instances.length)).getD 0
  | none => 0

theorem curCount_some {s : RenderDataBatchStorage} {k i : Nat}
    (h : mapFind s.batch_map k = some i) :
    curCount s k = ((s.batches.get? i).map (fun b => b.instances.length)).getD 0 := by
  simp [curCount, h]

theorem curCount_none {s : RenderDataBatchStorage} {k : Nat}
    (h : mapFind s.batch_map k = none) : curCount s k = 0 := by
  simp [curCount, h]

theorem curCount_applyPush {s : RenderDataBatchStorage} (hs : MapOk s) (a : PushArgs)
    (k : Nat) :
    curCount (applyPush s a) k = curCount s k + (if a.key = k then 1 else 0) := by
  by_cases hak : a.key = k
  · subst hak
    cases h : mapFind s.batch_map a.key with
    | some j =>
      have hb := List.get?_eq_get (mapOk_lt hs h)
      have hm' : mapFind (applyPush s a).batch_map a.key = some j := by
        rw [applyPush_map_found h]; exact h
      rw [curCount_some hm', curCount_some h, applyPush_found h]
      simp only [get?_listModify_self, hb]
      simp
    | none =>
      have hm' : mapFind (applyPush s a).batch_map a.key = some s.batches.length := by
        rw [applyPush_map_new h]; exact mapFind_cons_self
      rw [curCount_some hm', curCount_none h, applyPush_new h]
      simp only [List.get?_concat_length]
      simp
  · have hm' : mapFind (applyPush s a).batch_map k = mapFind s.batch_map k :=
      mapFind_applyPush_ne hak
    cases h : mapFind s.batch_map k with
    | some i =>
      have hm'' : mapFind (applyPush s a).batch_map k = some i := by rw [hm', h]
      rw [curCount_some hm'', curCount_some h, applyPush_get?_untouched hs h hak,
        if_neg hak, Nat.add_zero]
    | none =>
      have hm'' : mapFind (applyPush s a).batch_map k = none := by rw [hm', h]
      rw [curCount_none hm'', curCount_none h]
      simp [hak]

theorem applyPushes_cons (s : RenderDataBatchStorage) (a : PushArgs) (t : List PushArgs) :
    applyPushes s (a :: t) = applyPushes (applyPush s a) t := rfl

theorem mapOk_applyPushes {s : RenderDataBatchStorage} (hs : MapOk s)
    (l : List PushArgs) : MapOk (applyPushes s l) := by
  induction l generalizing s with
  | nil => exact hs
  | cons a t ih => exact ih (mapOk_applyPush hs a)

/-- Through a `push` sequence, the batch mapped for a key accumulates
exactly one instance per call carrying that key. -/
theorem pushes_count (l : List PushArgs) :
    ∀ (s : RenderDataBatchStorage), MapOk s → ∀ (k i : Nat),
    mapFind (applyPushes s l).batch_map k = some i →
    ((applyPushes s l).batches.get? i).map (fun b => b.instances.length) =
      some (curCount s k + l.countP (fun a => a.key = k)) := by
  induction l with
  | nil =>
    intro s hs k i h
    simp only [applyPushes, List.foldl] at h ⊢
    have hb := List.get?_eq_get (mapOk_lt hs h)
    rw [curCount_some h, hb]
    simp
  | cons a t ih =>
    intro s hs k i h
    rw [applyPushes_cons] at h ⊢
    rw [ih (applyPush s a) (mapOk_applyPush hs a) k i h,
      curCount_applyPush hs a k, List.countP_cons]
    by_cases hak : a.key = k <;> simp [hak] <;> omega

/-- The target recorded for call `i` of a `push` sequence is where the
final storage's map sends that call's key. -/
theorem pushTargets_mapFind (l : List PushArgs) :
    ∀ (s : RenderDataBatchStorage), ∀ (i : Nat) (hi : i < l.length),
    mapFind (applyPushes s l).batch_map ((l.get ⟨i, hi⟩).key) =
      some ((pushTargets s l).getD i 0) := by
  induction l with
  | nil => intro s i hi; simp at hi
  | cons a t ih =>
    intro s i hi
    cases i with
    | zero =>
      rw [applyPushes_cons]
      have hstable : mapFind (applyPush s a).batch_map a.key =
          some (pushTargetIndex s a) := mapFind_after_push s a
      have : ∀ (l' : List PushArgs) (s' : RenderDataBatchStorage) (k j : Nat),
          mapFind s'.batch_map k = some j →
          mapFind (applyPushes s' l').batch_map k = some j := by
        intro l'
        induction l' with
        | nil => intro s' k j h; exact h
        | cons b t' ih' =>
          intro s' k j h
          exact ih' (applyPush s' b) k j (mapFind_applyPush_mono h)
      simpa [pushTargets] using this t (applyPush s a) a.key _ hstable
    | succ i =>
      rw [applyPushes_cons]
      simpa [pushTargets] using ih (applyPush s a) i (by simpa using hi)

/-- Calls of one `push` sequence that carry the same batch key target the
same batch index. -/
theorem pushTargets_same_key (l : List PushArgs) :
    ∀ (s : RenderDataBatchStorage) (i j : Nat) (hi : i < l.length) (hj : j < l.length),
    (l.get ⟨i, hi⟩).key = (l.get ⟨j, hj⟩).key →
    (pushTargets s l).get? i = (pushTargets s l).get? j := by
  induction l with
  | nil => intro s i j hi; simp at hi
  | cons a t ih =>
    intro s i j hi hj hk
    cases i with
    | zero =>
      cases j with
      | zero => rfl
      | succ j =>
        simp only [List.get] at hk
        have := pushTargets_stable (l := t) (mapFind_after_push s a) j
          (by simpa using hj) (by simpa using hk.symm)
        simp only [pushTargets, List.get?]
        rw [this]
    | succ i =>
      cases j with
      | zero =>
        simp only [List.get] at hk
        have := pushTargets_stable (l := t) (mapFind_after_push s a) i
          (by simpa using hi) (by simpa using hk)
        simp only [pushTargets, List.get?]
        rw [this]
      | succ j =>
        simp only [pushTargets, List.get?]
        exact ih (applyPush s a) i j (by simpa using hi) (by simpa using hj)
          (by simpa using hk)

theorem pushArgs_key_congr {a b : PushArgs} (h : a.tuple = b.tuple) : a.key = b.key := by
  simp only [PushArgs.tuple, Prod.mk.injEq] at h
  obtain ⟨h1, h2, h3, h4, h5⟩ := h
  simp only [PushArgs.key, pushKey, h3, h4, h5]
  rw [show a.material.key = b.material.key from h1, show a.data.key = b.data.key from h2]

/-! ## Claim C1 -/

/-- A plain surface instance used for concrete inputs. -/
def dummyInstance : SurfaceInstanceData :=
  { world_transform := Matrix4.identity
    bone_matrices := []
    depth_offset := 0
    blend_shapes_weights := []
    element_range := ElementRange.Full
    persistent_identifier := ⟨0⟩
    node_handle := ⟨0, 0⟩ }

/-- Shared surface data with a given identity key and empty buffers. -/
def surfData (k : Nat) : SurfaceSharedData := ⟨k, ⟨⟨0, []⟩, ⟨[]⟩⟩⟩

/-- First call of the colliding pair: material 0, geometry 0. -/
def cexA : PushArgs :=
  { data := surfData 0
    material := ⟨0⟩
    render_path := RenderPath.Deferred
    decal_layer_index := 0
    sort_index := 0
    instance_data := dummyInstance }

/-- Second call of the colliding pair: material 1 and geometry key
`rotl64 5 fxSeed`, chosen so that the FxHasher batch key collides with
`cexA`'s even though the five-component identity differs. -/
def cexB : PushArgs :=
  { data := surfData (rotl64 5 fxSeed)
    material := ⟨1⟩
    render_path := RenderPath.Deferred
    decal_layer_index := 0
    sort_index := 0
    instance_data := dummyInstance }

/-- C1 fails as stated: the two calls `cexA`, `cexB` have different
(material, geometry, skinned, decal layer, render path) identities, yet
their FxHasher batch keys collide, so both instances land in batch 0 and
that batch ends with 2 instances, while the number of calls with `cexB`'s
identity is 1. -/
theorem c1_counterexample :
    cexA.tuple ≠ cexB.tuple ∧
    pushTargets RenderDataBatchStorage.empty [cexA, cexB] = [0, 0] ∧
    (applyPushes RenderDataBatchStorage.empty [cexA, cexB]).batches.map
      (fun b => b.instances.length) = [2] ∧
    [cexA, cexB].countP (fun a => a.tuple = cexB.tuple) = 1 := by
  refine ⟨by decide, by decide, by decide, by decide⟩

/-- C1 (amended): in any sequence of `push` calls on one storage, any two
calls with the same five-component identity place their instances in the
same batch, and a call's batch ends with as many instances as there are
calls whose identity hashes to the same 64-bit batch key (this equals the
number of identical-identity calls whenever the key hash is
collision-free over the identities pushed). -/
theorem c1_push_same_key_same_batch_and_count :
    (∀ (l : List PushArgs) (i j : Nat) (hi : i < l.length) (hj : j < l.length),
        (l.get ⟨i, hi⟩).tuple = (l.get ⟨j, hj⟩).tuple →
        (pushTargets RenderDataBatchStorage.empty l).get? i =
          (pushTargets RenderDataBatchStorage.empty l).get? j) ∧
    (∀ (l : List PushArgs) (i : Nat) (hi : i < l.length),
        ((applyPushes RenderDataBatchStorage.empty l).batches.get?
            ((pushTargets RenderDataBatchStorage.empty l).getD i 0)).map
          (fun b => b.instances.length) =
        some (l.countP (fun a => a.key = (l.get ⟨i, hi⟩).key))) := by
  constructor
  · intro l i j hi hj ht
    exact pushTargets_same_key l _ i j hi hj (pushArgs_key_congr ht)
  · intro l i hi
    have h := pushTargets_mapFind l RenderDataBatchStorage.empty i hi
    have hc := pushes_count l RenderDataBatchStorage.empty mapOk_empty _ _ h
    have h0 : curCount RenderDataBatchStorage.empty ((l.get ⟨i, hi⟩).key) = 0 := rfl
    rw [hc, h0, Nat.zero_add]

/-- A concrete `push` call for the C1 witness. -/
def wA : PushArgs :=
  { data := surfData 5
    material := ⟨7⟩
    render_path := RenderPath.Forward
    decal_layer_index := 3
    sort_index := 11
    instance_data := dummyInstance }

theorem c1_witness :
    (pushTargets RenderDataBatchStorage.empty [wA, wA]).get? 0 =
      (pushTargets RenderDataBatchStorage.empty [wA, wA]).get? 1 ∧
    ((applyPushes RenderDataBatchStorage.empty [wA, wA]).batches.get?
        ((pushTargets RenderDataBatchStorage.empty [wA, wA]).getD 0 0)).map
      (fun b => b.instances.length) =
      some ([wA, wA].countP (fun a => a.key = ([wA, wA].get ⟨0, by decide⟩).key)) :=
  ⟨c1_push_same_key_same_batch_and_count.1 [wA, wA] 0 1 (by decide) (by decide) rfl,
   c1_push_same_key_same_batch_and_count.2 [wA, wA] 0 (by decide)⟩

/-! ## Injectivity of the FxHasher key in each component -/

theorem rotl64_5_eq (w : Nat) : rotl64 5 w = w % 2 ^ 59 * 32 + w / 2 ^ 59 := by
  simp [rotl64]

theorem rotl64_5_lt {w : Nat} (hw : w < 2 ^ 64) : rotl64 5 w < 2 ^ 64 := by
  rw [rotl64_5_eq]
  have hm : w % 2 ^ 59 < 2 ^ 59 := Nat.mod_lt _ (by norm_num)
  have hd : w / 2 ^ 59 < 32 := Nat.div_lt_of_lt_mul (by calc
    w < 2 ^ 64 := hw
    _ = 32 * 2 ^ 59 := by norm_num)
  calc w % 2 ^ 59 * 32 + w / 2 ^ 59
      < w % 2 ^ 59 * 32 + 32 := Nat.add_lt_add_left hd _
    _ = (w % 2 ^ 59 + 1) * 32 := by ring
    _ ≤ 2 ^ 59 * 32 := Nat.mul_le_mul_right _ hm
    _ = 2 ^ 64 := by norm_num

theorem rotl64_5_inj {w1 w2 : Nat} (h1 : w1 < 2 ^ 64) (h2 : w2 < 2 ^ 64)
    (he : rotl64 5 w1 = rotl64 5 w2) : w1 = w2 := by
  rw [rotl64_5_eq, rotl64_5_eq] at he
  have hd1 : w1 / 2 ^ 59 < 32 := Nat.div_lt_of_lt_mul (by calc
    w1 < 2 ^ 64 := h1
    _ = 32 * 2 ^ 59 := by norm_num)
  have hd2 : w2 / 2 ^ 59 < 32 := Nat.div_lt_of_lt_mul (by calc
    w2 < 2 ^ 64 := h2
    _ = 32 * 2 ^ 59 := by norm_num)
  have he' : 32 * (w1 % 2 ^ 59) + w1 / 2 ^ 59 = 32 * (w2 % 2 ^ 59) + w2 / 2 ^ 59 := by
    rw [Nat.mul_comm 32 (w1 % 2 ^ 59), Nat.mul_comm 32 (w2 % 2 ^ 59)]
    exact he
  have hq : w1 / 2 ^ 59 = w2 / 2 ^ 59 := by
    have hc := congrArg (fun n => n % 32) he'
    simp only [Nat.mul_add_mod] at hc
    rwa [Nat.mod_eq_of_lt hd1, Nat.mod_eq_of_lt hd2] at hc
  have hr : w1 % 2 ^ 59 = w2 % 2 ^ 59 := by
    have hc := congrArg (fun n => n / 32) he'
    simp only [Nat.mul_add_div (by norm_num : (0:Nat) < 32)] at hc
    rwa [Nat.div_eq_of_lt hd1, Nat.div_eq_of_lt hd2, Nat.add_zero, Nat.add_zero] at hc
  calc w1 = 2 ^ 59 * (w1 / 2 ^ 59) + w1 % 2 ^ 59 := (Nat.div_add_mod w1 (2 ^ 59)).symm
    _ = 2 ^ 59 * (w2 / 2 ^ 59) + w2 % 2 ^ 59 := by rw [hq, hr]
    _ = w2 := Nat.div_add_mod w2 (2 ^ 59)

theorem natXor_left_cancel {a x y : Nat} (h : a ^^^ x = a ^^^ y) : x = y := by
  have h2 : (a ^^^ x) ^^^ a = (a ^^^ y) ^^^ a := by rw [h]
  rwa [Nat.xor_comm a x, Nat.xor_cancel_right, Nat.xor_comm a y, Nat.xor_cancel_right] at h2

theorem natXor_right_cancel {a b x : Nat} (h : a ^^^ x = b ^^^ x) : a = b := by
  have h2 : (a ^^^ x) ^^^ x = (b ^^^ x) ^^^ x := by rw [h]
  rwa [Nat.xor_cancel_right, Nat.xor_cancel_right] at h2

theorem mulSeed_mod_inj {a b : Nat} (ha : a < 2 ^ 64) (hb : b < 2 ^ 64)
    (h : a * fxSeed % 2 ^ 64 = b * fxSeed % 2 ^ 64) : a = b := by
  have hinv : fxSeed * fxSeedInv % 2 ^ 64 = 1 := by decide
  have key : ∀ c : Nat, c < 2 ^ 64 → c * fxSeed % 2 ^ 64 * fxSeedInv % 2 ^ 64 = c := by
    intro c hc
    rw [Nat.mod_mul_mod, Nat.mul_assoc, Nat.mul_mod c (fxSeed * fxSeedInv), hinv,
      Nat.mod_eq_of_lt hc, Nat.mul_one, Nat.mod_eq_of_lt hc]
  rw [← key a ha, ← key b hb, h]

theorem fxStep_lt (h x : Nat) : fxStep h x < 2 ^ 64 :=
  Nat.mod_lt _ (by norm_num)

theorem fxStep_inj_x {h x y : Nat} (hh : h < 2 ^ 64) (hx : x < 2 ^ 64) (hy : y < 2 ^ 64)
    (he : fxStep h x = fxStep h y) : x = y := by
  have hr : rotl64 5 h < 2 ^ 64 := rotl64_5_lt hh
  have h1 : rotl64 5 h ^^^ x = rotl64 5 h ^^^ y :=
    mulSeed_mod_inj (Nat.xor_lt_two_pow hr hx) (Nat.xor_lt_two_pow hr hy) he
  exact natXor_left_cancel h1

theorem fxStep_inj_h {h1 h2 x : Nat} (hb1 : h1 < 2 ^ 64) (hb2 : h2 < 2 ^ 64)
    (hx : x < 2 ^ 64) (he : fxStep h1 x = fxStep h2 x) : h1 = h2 := by
  have hr1 : rotl64 5 h1 < 2 ^ 64 := rotl64_5_lt hb1
  have hr2 : rotl64 5 h2 < 2 ^ 64 := rotl64_5_lt hb2
  have h3 : rotl64 5 h1 ^^^ x = rotl64 5 h2 ^^^ x :=
    mulSeed_mod_inj (Nat.xor_lt_two_pow hr1 hx) (Nat.xor_lt_two_pow hr2 hx) he
  exact rotl64_5_inj hb1 hb2 (natXor_right_cancel h3)

theorem fxStep_ne_h {h1 h2 x : Nat} (hb1 : h1 < 2 ^ 64) (hb2 : h2 < 2 ^ 64)
    (hx : x < 2 ^ 64) (hne : h1 ≠ h2) : fxStep h1 x ≠ fxStep h2 x :=
  fun he => hne (fxStep_inj_h hb1 hb2 hx he)

theorem fxStep_ne_x {h x y : Nat} (hh : h < 2 ^ 64) (hx : x < 2 ^ 64) (hy : y < 2 ^ 64)
    (hne : x ≠ y) : fxStep h x ≠ fxStep h y :=
  fun he => hne (fxStep_inj_x hh hx hy he)

theorem mod8_lt64 (x : Nat) : x % 2 ^ 8 < 2 ^ 64 :=
  lt_trans (Nat.mod_lt _ (by norm_num)) (by norm_num)

theorem mod32_lt64 (x : Nat) : x % 2 ^ 32 < 2 ^ 64 :=
  lt_trans (Nat.mod_lt _ (by norm_num)) (by norm_num)

theorem mod64_lt64 (x : Nat) : x % 2 ^ 64 < 2 ^ 64 :=
  Nat.mod_lt _ (by norm_num)

/-- The instance-push batch key separates any two calls that differ in
exactly one of the five identity components (all inputs in their machine
ranges): each FxHasher step is injective in the state and in the word. -/
theorem pushKey_ne (m1 m2 : SharedMaterial) (d1 d2 : SurfaceSharedData)
    (s1 s2 : Bool) (l1 l2 : Nat) (r1 r2 : RenderPath)
    (hm1 : m1.key < 2 ^ 64) (hm2 : m2.key < 2 ^ 64)
    (hd1 : d1.key < 2 ^ 64) (hd2 : d2.key < 2 ^ 64)
    (hl1 : l1 < 2 ^ 8) (hl2 : l2 < 2 ^ 8)
    (hdiff :
      (m1.key ≠ m2.key ∧ d1.key = d2.key ∧ s1 = s2 ∧ l1 = l2 ∧ r1 = r2) ∨
      (m1.key = m2.key ∧ d1.key ≠ d2.key ∧ s1 = s2 ∧ l1 = l2 ∧ r1 = r2) ∨
      (m1.key = m2.key ∧ d1.key = d2.key ∧ s1 ≠ s2 ∧ l1 = l2 ∧ r1 = r2) ∨
      (m1.key = m2.key ∧ d1.key = d2.key ∧ s1 = s2 ∧ l1 ≠ l2 ∧ r1 = r2) ∨
      (m1.key = m2.key ∧ d1.key = d2.key ∧ s1 = s2 ∧ l1 = l2 ∧ r1 ≠ r2)) :
    pushKey m1 d1 s1 l1 r1 ≠ pushKey m2 d2 s2 l2 r2 := by
  have b0 : (0 : Nat) < 2 ^ 64 := by norm_num
  simp only [pushKey, fxWrite64, fxWrite32, fxWrite8]
  rcases hdiff with ⟨hne, he2, he3, he4, he5⟩ | ⟨he1, hne, he3, he4, he5⟩ |
    ⟨he1, he2, hne, he4, he5⟩ | ⟨he1, he2, he3, hne, he5⟩ | ⟨he1, he2, he3, he4, hne⟩
  · rw [he2, he3, he4, he5]
    have n1 : fxStep 0 (m1.key % 2 ^ 64) ≠ fxStep 0 (m2.key % 2 ^ 64) := by
      rw [Nat.mod_eq_of_lt hm1, Nat.mod_eq_of_lt hm2]
      exact fxStep_ne_x b0 hm1 hm2 hne
    have n2 := fxStep_ne_h (fxStep_lt _ _) (fxStep_lt _ _) (mod64_lt64 d2.key) n1
    have n3 := fxStep_ne_h (fxStep_lt _ _) (fxStep_lt _ _)
      (mod8_lt64 (if s2 then 1 else 0)) n2
    have n4 := fxStep_ne_h (fxStep_lt _ _) (fxStep_lt _ _) (mod8_lt64 l2) n3
    exact fxStep_ne_h (fxStep_lt _ _) (fxStep_lt _ _) (mod32_lt64 r2.disc) n4
  · rw [he1, he3, he4, he5]
    have n2 : fxStep (fxStep 0 (m2.key % 2 ^ 64)) (d1.key % 2 ^ 64) ≠
        fxStep (fxStep 0 (m2.key % 2 ^ 64)) (d2.key % 2 ^ 64) := by
      rw [Nat.mod_eq_of_lt hd1, Nat.mod_eq_of_lt hd2]
      exact fxStep_ne_x (fxStep_lt _ _) hd1 hd2 hne
    have n3 := fxStep_ne_h (fxStep_lt _ _) (fxStep_lt _ _)
      (mod8_lt64 (if s2 then 1 else 0)) n2
    have n4 := fxStep_ne_h (fxStep_lt _ _) (fxStep_lt _ _) (mod8_lt64 l2) n3
    exact fxStep_ne_h (fxStep_lt _ _) (fxStep_lt _ _) (mod32_lt64 r2.disc) n4
  · rw [he1, he2, he4, he5]
    have hx : (if s1 then (1 : Nat) else 0) % 2 ^ 8 ≠ (if s2 then (1 : Nat) else 0) % 2 ^ 8 := by
      cases s1 <;> cases s2 <;> first | exact absurd rfl hne | decide
    have n3 : fxStep (fxStep (fxStep 0 (m2.key % 2 ^ 64)) (d2.key % 2 ^ 64))
          ((if s1 then (1 : Nat) else 0) % 2 ^ 8) ≠
        fxStep (fxStep (fxStep 0 (m2.key % 2 ^ 64)) (d2.key % 2 ^ 64))
          ((if s2 then (1 : Nat) else 0) % 2 ^ 8) :=
      fxStep_ne_x (fxStep_lt _ _) (mod8_lt64 _) (mod8_lt64 _) hx
    have n4 := fxStep_ne_h (fxStep_lt _ _) (fxStep_lt _ _) (mod8_lt64 l2) n3
    exact fxStep_ne_h (fxStep_lt _ _) (fxStep_lt _ _) (mod32_lt64 r2.disc) n4
  · rw [he1, he2, he3, he5]
    have hx : l1 % 2 ^ 8 ≠ l2 % 2 ^ 8 := by
      rw [Nat.mod_eq_of_lt hl1, Nat.mod_eq_of_lt hl2]
      exact hne
    have n4 : fxStep (fxStep (fxStep (fxStep 0 (m2.key % 2 ^ 64)) (d2.key % 2 ^ 64))
          ((if s2 then (1 : Nat) else 0) % 2 ^ 8)) (l1 % 2 ^ 8) ≠
        fxStep (fxStep (fxStep (fxStep 0 (m2.key % 2 ^ 64)) (d2.key % 2 ^ 64))
          ((if s2 then (1 : Nat) else 0) % 2 ^ 8)) (l2 % 2 ^ 8) :=
      fxStep_ne_x (fxStep_lt _ _) (mod8_lt64 _) (mod8_lt64 _) hx
    exact fxStep_ne_h (fxStep_lt _ _) (fxStep_lt _ _) (mod32_lt64 r2.disc) n4
  · rw [he1, he2, he3, he4]
    have hx : r1.disc % 2 ^ 32 ≠ r2.disc % 2 ^ 32 := by
      cases r1 <;> cases r2 <;> first | exact absurd rfl hne | decide
    exact fxStep_ne_x (fxStep_lt _ _) (mod32_lt64 _) (mod32_lt64 _) hx

/-! ## Claim C8 -/

/-- Machine-range side conditions on a `push` call's identity inputs:
material and geometry keys are `u64` values, the decal layer index is a
`u8` value. -/
def PushArgs.InRange (a : PushArgs) : Prop :=
  a.material.key < 2 ^ 64 ∧ a.data.key < 2 ^ 64 ∧ a.decal_layer_index < 2 ^ 8

/-- Two `push` calls differ in exactly one of material identity, geometry
identity, skinned flag, decal layer index, render path. -/
def DifferInExactlyOne (a b : PushArgs) : Prop :=
  (a.material.key ≠ b.material.key ∧ a.data.key = b.data.key ∧
    a.isSkinned = b.isSkinned ∧ a.decal_layer_index = b.decal_layer_index ∧
    a.render_path = b.render_path) ∨
  (a.material.key = b.material.key ∧ a.data.key ≠ b.data.key ∧
    a.isSkinned = b.isSkinned ∧ a.decal_layer_index = b.decal_layer_index ∧
    a.render_path = b.render_path) ∨
  (a.material.key = b.material.key ∧ a.data.key = b.data.key ∧
    a.isSkinned ≠ b.isSkinned ∧ a.decal_layer_index = b.decal_layer_index ∧
    a.render_path = b.render_path) ∨
  (a.material.key = b.material.key ∧ a.data.key = b.data.key ∧
    a.isSkinned = b.isSkinned ∧ a.decal_layer_index ≠ b.decal_layer_index ∧
    a.render_path = b.render_path) ∨
  (a.material.key = b.material.key ∧ a.data.key = b.data.key ∧
    a.isSkinned = b.isSkinned ∧ a.decal_layer_index = b.decal_layer_index ∧
    a.render_path ≠ b.render_path)

theorem PushArgs.key_ne_of_differOne {a b : PushArgs}
    (ha : a.InRange) (hb : b.InRange) (hd : DifferInExactlyOne a b) :
    a.key ≠ b.key :=
  pushKey_ne a.material b.material a.data b.data a.isSkinned b.isSkinned
    a.decal_layer_index b.decal_layer_index a.render_path b.render_path
    ha.1 hb.1 ha.2.1 hb.2.1 ha.2.2 hb.2.2 hd

/-- C8: two consecutive `push` calls on the same (well-formed) storage
that differ in exactly one of the five identity components place their
instances in two distinct batches. -/
theorem c8_differ_one_distinct_batches (s : RenderDataBatchStorage)
    (a b : PushArgs) (hs : MapOk s) (ha : a.InRange) (hb : b.InRange)
    (hd : DifferInExactlyOne a b) :
    pushTargetIndex s a ≠ pushTargetIndex (applyPush s a) b := by
  have hkey : a.key ≠ b.key := PushArgs.key_ne_of_differOne ha hb hd
  have h1 : mapFind (applyPush s a).batch_map a.key = some (pushTargetIndex s a) :=
    mapFind_after_push s a
  have hs1 : MapOk (applyPush s a) := mapOk_applyPush hs a
  cases h2 : mapFind (applyPush s a).batch_map b.key with
  | some j =>
    have : pushTargetIndex (applyPush s a) b = j := by simp [pushTargetIndex, h2]
    rw [this]
    exact mapOk_inj hs1 h1 h2 hkey
  | none =>
    have : pushTargetIndex (applyPush s a) b = (applyPush s a).batches.length := by
      simp [pushTargetIndex, h2]
    rw [this]
    exact Nat.ne_of_lt (pushTargetIndex_lt s a hs)

/-- The second call of the C8 witness pair: as `wA` but with a different
decal layer index. -/
def wB : PushArgs :=
  { data := surfData 5
    material := ⟨7⟩
    render_path := RenderPath.Forward
    decal_layer_index := 4
    sort_index := 11
    instance_data := dummyInstance }

theorem c8_witness :
    pushTargetIndex RenderDataBatchStorage.empty wA ≠
      pushTargetIndex (applyPush RenderDataBatchStorage.empty wA) wB :=
  c8_differ_one_distinct_batches RenderDataBatchStorage.empty wA wB mapOk_empty
    (by refine ⟨?_, ?_, ?_⟩ <;> decide)
    (by refine ⟨?_, ?_, ?_⟩ <;> decide)
    (Or.inr (Or.inr (Or.inr (Or.inl (by refine ⟨rfl, rfl, rfl, by decide, rfl⟩)))))

/-! ## Claim C4 -/

/-- C4: `PersistentIdentifier::new_combined` is a deterministic function
of exactly (geometry identity key, node handle, index): calls with equal
key, handle and index give bit-for-bit equal identifiers, whatever else
(buffer contents, any surrounding state) differs. -/
theorem c4_new_combined_deterministic (d1 d2 : SurfaceSharedData)
    (h1 h2 : Handle) (i1 i2 : Nat)
    (hk : d1.key = d2.key) (hh : h1 = h2) (hi : i1 = i2) :
    PersistentIdentifier.new_combined d1 h1 i1 =
      PersistentIdentifier.new_combined d2 h2 i2 := by
  subst hh
  subst hi
  simp only [PersistentIdentifier.new_combined, hk]

/-- Surface data sharing `surfData 3`'s identity key but with different
buffer contents, showing the identifier ignores everything but the key. -/
def surfDataAlt : SurfaceSharedData := ⟨3, ⟨⟨1, [5, 6]⟩, ⟨[⟨0, 1, 2⟩]⟩⟩⟩

theorem c4_witness :
    PersistentIdentifier.new_combined (surfData 3) ⟨2, 9⟩ 4 =
      PersistentIdentifier.new_combined surfDataAlt ⟨2, 9⟩ 4 :=
  c4_new_combined_deterministic (surfData 3) surfDataAlt ⟨2, 9⟩ ⟨2, 9⟩ 4 4 rfl rfl rfl

/-! ## Claim C5 -/

/-- C5: after `sort`, every adjacent pair of batches is in non-decreasing
sort-index order. -/
theorem c5_sort_adjacent_sorted (s : RenderDataBatchStorage) (i : Nat)
    (b1 b2 : RenderDataBatch)
    (h1 : (s.sort).batches.get? i = some b1)
    (h2 : (s.sort).batches.get? (i + 1) = some b2) :
    b1.sort_index ≤ b2.sort_index := by
  have htrans : ∀ a b c : RenderDataBatch,
      (fun a b : RenderDataBatch => (a.sort_index ≤ b.sort_index : Bool)) a b = true →
      (fun a b : RenderDataBatch => (a.sort_index ≤ b.sort_index : Bool)) b c = true →
      (fun a b : RenderDataBatch => (a.sort_index ≤ b.sort_index : Bool)) a c = true := by
    intro a b c hab hbc
    simp only [decide_eq_true_iff] at hab hbc ⊢
    exact Nat.le_trans hab hbc
  have htotal : ∀ a b : RenderDataBatch,
      ((fun a b : RenderDataBatch => (a.sort_index ≤ b.sort_index : Bool)) a b ||
       (fun a b : RenderDataBatch => (a.sort_index ≤ b.sort_index : Bool)) b a) = true := by
    intro a b
    simp only [Bool.or_eq_true, decide_eq_true_iff]
    exact Nat.le_total _ _
  have hp := List.sorted_mergeSort htrans htotal s.batches
  rw [List.pairwise_iff_get] at hp
  obtain ⟨hb1, he1⟩ := List.get?_eq_some.mp h1
  obtain ⟨hb2, he2⟩ := List.get?_eq_some.mp h2
  have hrel := hp ⟨i, hb1⟩ ⟨i + 1, hb2⟩ (by simp)
  have he1' : (s.batches.mergeSort
      fun a b => decide (a.sort_index ≤ b.sort_index)).get ⟨i, hb1⟩ = b1 := he1
  have he2' : (s.batches.mergeSort
      fun a b => decide (a.sort_index ≤ b.sort_index)).get ⟨i + 1, hb2⟩ = b2 := he2
  rw [he1', he2'] at hrel
  exact decide_eq_true_iff.mp hrel

/-- A batch with the given sort index, for concrete inputs. -/
def wBatch (n : Nat) : RenderDataBatch :=
  { data := surfData 0
    time_to_live := ⟨0⟩
    instances := [dummyInstance]
    material := ⟨0⟩
    is_skinned := false
    render_path := RenderPath.Deferred
    decal_layer_index := 0
    sort_index := n }

theorem c5_witness :
    (wBatch 3).sort_index ≤ (wBatch 5).sort_index :=
  c5_sort_adjacent_sorted ⟨[], [wBatch 5, wBatch 3], 0⟩ 0 (wBatch 3) (wBatch 5)
    (by simp [RenderDataBatchStorage.sort, List.mergeSort, wBatch])
    (by simp [RenderDataBatchStorage.sort, List.mergeSort, wBatch])

/-! ## Unfolding lemmas for `push_triangles` -/

/-- The geometry-append step of `push_triangles`: append the vertices, and
append the triangles with every referenced vertex index offset by `off`. -/
def appendGeometry (vertices : List Nat) (tris : List TriangleDefinition) (off : Nat)
    (b : RenderDataBatch) : RenderDataBatch :=
  { b with
    data := { b.data with
      surface :=
        { vertex_buffer := { b.data.surface.vertex_buffer with
            vertices := b.data.surface.vertex_buffer.vertices ++ vertices }
          geometry_buffer := ⟨b.data.surface.geometry_buffer.triangles ++
            tris.map (fun t => TriangleDefinition.add t off)⟩ } } }

/-- The batch a key-miss `push_triangles` call creates (fresh empty
geometry, one-frame lifetime, single placeholder instance), before the
append step runs on it. -/
def ptCreatedBatch (s : RenderDataBatchStorage) (a : PushTrianglesArgs) : RenderDataBatch :=
  { data := ⟨s.next_data_key, ⟨⟨a.vertex_type_id, []⟩, ⟨[]⟩⟩⟩
    sort_index := a.sort_index
    instances := [placeholderInstance ⟨s.next_data_key, ⟨⟨a.vertex_type_id, []⟩, ⟨[]⟩⟩⟩
      a.node_handle]
    material := a.material
    is_skinned := a.is_skinned
    render_path := a.render_path
    decal_layer_index := a.decal_layer_index
    time_to_live := ⟨0⟩ }

theorem applyPT_found {s : RenderDataBatchStorage} {a : PushTrianglesArgs} {i : Nat}
    {b : RenderDataBatch} (hm : mapFind s.batch_map a.key = some i)
    (hb : s.batches.get? i = some b) :
    applyPushTriangles s a =
      if b.data.surface.vertex_buffer.layout = a.vertex_type_id then
        some { s with batches := listModify (appendGeometry a.vertices a.local_triangles
          b.data.surface.vertex_buffer.vertex_count) i s.batches }
      else none := by
  have hk : pushTrianglesKey a.material a.vertex_type_id a.is_skinned
      a.decal_layer_index a.render_path = a.key := rfl
  simp only [applyPushTriangles, RenderDataBatchStorage.push_triangles, hk, hm, hb]
  rfl

theorem applyPT_new {s : RenderDataBatchStorage} {a : PushTrianglesArgs}
    (hm : mapFind s.batch_map a.key = none) :
    applyPushTriangles s a = some
      { batch_map := (a.key, s.batches.length) :: s.batch_map
        batches := s.batches ++
          [appendGeometry a.vertices a.local_triangles 0 (ptCreatedBatch s a)]
        next_data_key := s.next_data_key + 1 } := by
  have hk : pushTrianglesKey a.material a.vertex_type_id a.is_skinned
      a.decal_layer_index a.render_path = a.key := rfl
  simp only [applyPushTriangles, RenderDataBatchStorage.push_triangles, hk, hm,
    List.get?_concat_length, if_true]
  rw [listModify_append_last]
  rfl

/-! ## Claim C2 -/

theorem tadd_zero (t : TriangleDefinition) : t.add 0 = t := by
  cases t
  simp [TriangleDefinition.add]

theorem pushTrianglesArgs_key_congr {a b : PushTrianglesArgs}
    (hm : a.material.key = b.material.key) (ht : a.vertex_type_id = b.vertex_type_id)
    (hs : a.is_skinned = b.is_skinned) (hl : a.decal_layer_index = b.decal_layer_index)
    (hr : a.render_path = b.render_path) : a.key = b.key := by
  simp only [PushTrianglesArgs.key, pushTrianglesKey, ht, hs, hl, hr]
  rw [show a.material.key = b.material.key from hm]

/-- C2: two `push_triangles` calls with the same batch-key identity, the
first of which creates the batch: the merged geometry holds the first
call's vertices followed by the second call's (n1 + n2 vertices), the
first call's triangles keep their local indices, and the second call's
triangles are stored with every vertex index offset by exactly n1. -/
theorem c2_push_triangles_append_offsets (s : RenderDataBatchStorage)
    (a1 a2 : PushTrianglesArgs)
    (hm : mapFind s.batch_map a1.key = none)
    (hmat : a1.material.key = a2.material.key)
    (hty : a1.vertex_type_id = a2.vertex_type_id)
    (hsk : a1.is_skinned = a2.is_skinned)
    (hdl : a1.decal_layer_index = a2.decal_layer_index)
    (hrp : a1.render_path = a2.render_path) :
    ∃ s1 s2 b,
      applyPushTriangles s a1 = some s1 ∧
      applyPushTriangles s1 a2 = some s2 ∧
      s2.batches.get? s.batches.length = some b ∧
      b.data.surface.vertex_buffer.vertices = a1.vertices ++ a2.vertices ∧
      b.data.surface.vertex_buffer.vertex_count =
        a1.vertices.length + a2.vertices.length ∧
      b.data.surface.geometry_buffer.triangles =
        a1.local_triangles ++
          a2.local_triangles.map (fun t => t.add a1.vertices.length) := by
  have hkey : a1.key = a2.key := pushTrianglesArgs_key_congr hmat hty hsk hdl hrp
  have h1 := applyPT_new hm
  set B1 := appendGeometry a1.vertices a1.local_triangles 0 (ptCreatedBatch s a1) with hB1
  set s1 : RenderDataBatchStorage :=
    { batch_map := (a1.key, s.batches.length) :: s.batch_map
      batches := s.batches ++ [B1]
      next_data_key := s.next_data_key + 1 } with hs1
  have hm2 : mapFind s1.batch_map a2.key = some s.batches.length := by
    rw [hs1, ← hkey]
    exact mapFind_cons_self
  have hb : s1.batches.get? s.batches.length = some B1 := List.get?_concat_length _ _
  have hlayout : B1.data.surface.vertex_buffer.layout = a2.vertex_type_id := by
    rw [← hty]
    rfl
  have h2 := applyPT_found hm2 hb
  rw [if_pos hlayout] at h2
  refine ⟨s1, _, appendGeometry a2.vertices a2.local_triangles
    B1.data.surface.vertex_buffer.vertex_count B1, h1, h2, ?_, ?_, ?_, ?_⟩
  · show (listModify (appendGeometry a2.vertices a2.local_triangles
      B1.data.surface.vertex_buffer.vertex_count) s.batches.length
        (s.batches ++ [B1])).get? s.batches.length = _
    rw [listModify_append_last, List.get?_concat_length]
  · simp [appendGeometry, ptCreatedBatch, B1]
  · simp [appendGeometry, ptCreatedBatch, VertexBuffer.vertex_count, B1]
  · simp only [appendGeometry, ptCreatedBatch, VertexBuffer.vertex_count, B1]
    simp [tadd_zero, List.map_id']

/-- First concrete `push_triangles` call (2 vertices, 1 triangle). -/
def wPT1 : PushTrianglesArgs :=
  { vertex_type_id := 1
    vertices := [10, 11]
    local_triangles := [⟨0, 1, 1⟩]
    material := ⟨2⟩
    render_path := RenderPath.Deferred
    decal_layer_index := 0
    sort_index := 0
    is_skinned := false
    node_handle := ⟨0, 0⟩ }

/-- Second concrete `push_triangles` call with the same batch-key identity
(3 vertices, 1 triangle). -/
def wPT2 : PushTrianglesArgs :=
  { vertex_type_id := 1
    vertices := [12, 13, 14]
    local_triangles := [⟨0, 1, 2⟩]
    material := ⟨2⟩
    render_path := RenderPath.Deferred
    decal_layer_index := 0
    sort_index := 0
    is_skinned := false
    node_handle := ⟨0, 0⟩ }

theorem c2_witness :
    ∃ s1 s2 b,
      applyPushTriangles RenderDataBatchStorage.empty wPT1 = some s1 ∧
      applyPushTriangles s1 wPT2 = some s2 ∧
      s2.batches.get? RenderDataBatchStorage.empty.batches.length = some b ∧
      b.data.surface.vertex_buffer.vertices = wPT1.vertices ++ wPT2.vertices ∧
      b.data.surface.vertex_buffer.vertex_count =
        wPT1.vertices.length + wPT2.vertices.length ∧
      b.data.surface.geometry_buffer.triangles =
        wPT1.local_triangles ++
          wPT2.local_triangles.map (fun t => t.add wPT1.vertices.length) :=
  c2_push_triangles_append_offsets RenderDataBatchStorage.empty wPT1 wPT2
    rfl rfl rfl rfl rfl rfl

/-! ## Claim C10 -/

/-- C10: a batch created by `push_triangles` carries exactly one
placeholder instance — identity world transform, time-to-live zero,
persistent identifier combining the new geometry's identity, the supplied
node handle and index zero — and a `push_triangles` call that finds an
existing batch changes nothing except that batch's geometry buffers: the
key map, the allocator state, every other batch, and the found batch's
instance list (hence the index-zero identifier) all stay as they were. -/
theorem c10_placeholder_and_append_only :
    (∀ (s : RenderDataBatchStorage) (a : PushTrianglesArgs),
      mapFind s.batch_map a.key = none →
      ∃ s' bNew,
        applyPushTriangles s a = some s' ∧
        s'.batch_map = (a.key, s.batches.length) :: s.batch_map ∧
        s'.batches = s.batches ++ [bNew] ∧
        bNew.time_to_live = ⟨0⟩ ∧
        bNew.instances = [placeholderInstance bNew.data a.node_handle] ∧
        (placeholderInstance bNew.data a.node_handle).world_transform = Matrix4.identity ∧
        (placeholderInstance bNew.data a.node_handle).persistent_identifier =
          PersistentIdentifier.new_combined bNew.data a.node_handle 0) ∧
    (∀ (s : RenderDataBatchStorage) (a : PushTrianglesArgs) (i : Nat)
        (b : RenderDataBatch),
      mapFind s.batch_map a.key = some i → s.batches.get? i = some b →
      b.data.surface.vertex_buffer.layout = a.vertex_type_id →
      ∃ s',
        applyPushTriangles s a = some s' ∧
        s'.batch_map = s.batch_map ∧
        s'.next_data_key = s.next_data_key ∧
        s'.batches.length = s.batches.length ∧
        (∀ j, j ≠ i → s'.batches.get? j = s.batches.get? j) ∧
        s'.batches.get? i = some (appendGeometry a.vertices a.local_triangles
          b.data.surface.vertex_buffer.vertex_count b) ∧
        (appendGeometry a.vertices a.local_triangles
          b.data.surface.vertex_buffer.vertex_count b).instances = b.instances) := by
  constructor
  · intro s a hm
    refine ⟨_, appendGeometry a.vertices a.local_triangles 0 (ptCreatedBatch s a),
      applyPT_new hm, rfl, rfl, rfl, rfl, rfl, rfl⟩
  · intro s a i b hm hb hlay
    have h2 := applyPT_found hm hb
    rw [if_pos hlay] at h2
    refine ⟨_, h2, rfl, rfl, by simp, ?_, ?_, rfl⟩
    · intro j hj
      exact get?_listModify_ne _ _ hj
    · rw [show ({ s with batches := listModify (appendGeometry a.vertices a.local_triangles
        b.data.surface.vertex_buffer.vertex_count) i s.batches } :
          RenderDataBatchStorage).batches =
        listModify (appendGeometry a.vertices a.local_triangles
          b.data.surface.vertex_buffer.vertex_count) i s.batches from rfl,
        get?_listModify_self, hb]
      rfl

/-- A storage whose only batch was created by `push_triangles` for
`wPT2`'s key, used to witness the append-only half of C10. -/
def wPTStorage : RenderDataBatchStorage :=
  ⟨[(wPT2.key, 0)], [ptCreatedBatch RenderDataBatchStorage.empty wPT2], 5⟩

theorem c10_witness :
    (∃ s' bNew,
      applyPushTriangles RenderDataBatchStorage.empty wPT1 = some s' ∧
      s'.batch_map = (wPT1.key, RenderDataBatchStorage.empty.batches.length) ::
        RenderDataBatchStorage.empty.batch_map ∧
      s'.batches = RenderDataBatchStorage.empty.batches ++ [bNew] ∧
      bNew.time_to_live = ⟨0⟩ ∧
      bNew.instances = [placeholderInstance bNew.data wPT1.node_handle] ∧
      (placeholderInstance bNew.data wPT1.node_handle).world_transform =
        Matrix4.identity ∧
      (placeholderInstance bNew.data wPT1.node_handle).persistent_identifier =
        PersistentIdentifier.new_combined bNew.data wPT1.node_handle 0) ∧
    (∃ s',
      applyPushTriangles wPTStorage wPT2 = some s' ∧
      s'.batch_map = wPTStorage.batch_map ∧
      s'.next_data_key = wPTStorage.next_data_key ∧
      s'.batches.length = wPTStorage.batches.length ∧
      (∀ j, j ≠ 0 → s'.batches.get? j = wPTStorage.batches.get? j) ∧
      s'.batches.get? 0 = some (appendGeometry wPT2.vertices wPT2.local_triangles
        (ptCreatedBatch RenderDataBatchStorage.empty
          wPT2).data.surface.vertex_buffer.vertex_count
        (ptCreatedBatch RenderDataBatchStorage.empty wPT2)) ∧
      (appendGeometry wPT2.vertices wPT2.local_triangles
        (ptCreatedBatch RenderDataBatchStorage.empty
          wPT2).data.surface.vertex_buffer.vertex_count
        (ptCreatedBatch RenderDataBatchStorage.empty wPT2)).instances =
        (ptCreatedBatch RenderDataBatchStorage.empty wPT2).instances) :=
  ⟨c10_placeholder_and_append_only.1 RenderDataBatchStorage.empty wPT1 rfl,
   c10_placeholder_and_append_only.2 wPTStorage wPT2 0
     (ptCreatedBatch RenderDataBatchStorage.empty wPT2) rfl rfl rfl⟩

/-! ## Claim C9 -/

/-- Every batch reachable through the key map has the vertex layout of
some call of `l` carrying that key (invariant of `push_triangles`-built
storages). -/
def LayoutConsistent (l : List PushTrianglesArgs) (s : RenderDataBatchStorage) : Prop :=
  ∀ k i, mapFind s.batch_map k = some i →
    ∃ b, s.batches.get? i = some b ∧
      ∃ a, a ∈ l ∧ a.key = k ∧ b.data.surface.vertex_buffer.layout = a.vertex_type_id

theorem appendGeometry_layout (v : List Nat) (t : List TriangleDefinition) (o : Nat)
    (b : RenderDataBatch) :
    (appendGeometry v t o b).data.surface.vertex_buffer.layout =
      b.data.surface.vertex_buffer.layout := rfl

theorem applyPT_step_layout {l : List PushTrianglesArgs} {s : RenderDataBatchStorage}
    (hL : LayoutConsistent l s) {a : PushTrianglesArgs} (ha : a ∈ l)
    (hcol : ∀ a1 ∈ l, ∀ a2 ∈ l, a1.key = a2.key → a1.vertex_type_id = a2.vertex_type_id) :
    ∃ s', applyPushTriangles s a = some s' ∧ LayoutConsistent l s' := by
  cases hm : mapFind s.batch_map a.key with
  | some i =>
    obtain ⟨b, hb, a', ha', hk', hl'⟩ := hL a.key i hm
    have hlay : b.data.surface.vertex_buffer.layout = a.vertex_type_id := by
      rw [hl']
      exact hcol a' ha' a ha hk'
    have h2 := applyPT_found hm hb
    rw [if_pos hlay] at h2
    refine ⟨_, h2, ?_⟩
    intro k i' hm'
    have hm'' : mapFind s.batch_map k = some i' := hm'
    obtain ⟨b', hb', a'', ha'', hk'', hl''⟩ := hL k i' hm''
    by_cases hii : i' = i
    · subst hii
      have hbb : b' = b := by
        rw [hb'] at hb
        exact Option.some.inj hb
      refine ⟨appendGeometry a.vertices a.local_triangles
        b.data.surface.vertex_buffer.vertex_count b, ?_, a'', ha'', hk'', ?_⟩
      · show (listModify (appendGeometry a.vertices a.local_triangles
          b.data.surface.vertex_buffer.vertex_count) i' s.batches).get? i' = _
        rw [get?_listModify_self, hb']
        rw [hbb]
        rfl
      · rw [appendGeometry_layout, ← hbb]
        exact hl''
    · refine ⟨b', ?_, a'', ha'', hk'', hl''⟩
      show (listModify (appendGeometry a.vertices a.local_triangles
        b.data.surface.vertex_buffer.vertex_count) i s.batches).get? i' = _
      rw [get?_listModify_ne _ _ hii]
      exact hb'
  | none =>
    have h2 := applyPT_new hm
    refine ⟨_, h2, ?_⟩
    intro k i' hm'
    by_cases hk : a.key = k
    · subst hk
      have hm'' : mapFind ((a.key, s.batches.length) :: s.batch_map) a.key = some i' := hm'
      rw [mapFind_cons_self] at hm''
      have hlen : s.batches.length = i' := Option.some.inj hm''
      subst hlen
      refine ⟨appendGeometry a.vertices a.local_triangles 0 (ptCreatedBatch s a),
        ?_, a, ha, rfl, rfl⟩
      show (s.batches ++
        [appendGeometry a.vertices a.local_triangles 0 (ptCreatedBatch s a)]).get?
          s.batches.length = _
      rw [List.get?_concat_length]
    · have hm'' : mapFind ((a.key, s.batches.length) :: s.batch_map) k = some i' := hm'
      rw [mapFind_cons_ne hk] at hm''
      obtain ⟨b', hb', a'', ha'', hk'', hl''⟩ := hL k i' hm''
      obtain ⟨hlt, -⟩ := List.get?_eq_some.mp hb'
      refine ⟨b', ?_, a'', ha'', hk'', hl''⟩
      show (s.batches ++
        [appendGeometry a.vertices a.local_triangles 0 (ptCreatedBatch s a)]).get? i' = _
      rw [List.get?_append hlt]
      exact hb'

theorem applyPTSeq_total_from {l : List PushTrianglesArgs}
    (hcol : ∀ a1 ∈ l, ∀ a2 ∈ l, a1.key = a2.key → a1.vertex_type_id = a2.vertex_type_id) :
    ∀ (l2 : List PushTrianglesArgs), (∀ a ∈ l2, a ∈ l) →
    ∀ s, LayoutConsistent l s →
    ∃ s', applyPushTrianglesSeq s l2 = some s' ∧ LayoutConsistent l s' := by
  intro l2
  induction l2 with
  | nil => intro _ s hL; exact ⟨s, rfl, hL⟩
  | cons a t ih =>
    intro hsub s hL
    obtain ⟨s1, h1, hL1⟩ := applyPT_step_layout hL (hsub a (List.mem_cons_self a t)) hcol
    obtain ⟨s2, h2, hL2⟩ := ih (fun x hx => hsub x (List.mem_cons_of_mem a hx)) s1 hL1
    refine ⟨s2, ?_, hL2⟩
    rw [applyPushTrianglesSeq, List.foldlM_cons, h1]
    exact h2

/-- C9: the `push_triangles` vertex-type check is the panic branch — a
call whose vertex type differs from the found batch's stored layout fails
fatally — and that branch is unreachable when batch lookup is
collision-free: over any call sequence in which equal batch keys imply
equal vertex types, every call from the empty storage succeeds. -/
theorem c9_mismatch_panics_unreachable_without_collision :
    (∀ (s : RenderDataBatchStorage) (a : PushTrianglesArgs) (i : Nat)
        (b : RenderDataBatch),
      mapFind s.batch_map a.key = some i → s.batches.get? i = some b →
      b.data.surface.vertex_buffer.layout ≠ a.vertex_type_id →
      applyPushTriangles s a = none) ∧
    (∀ l : List PushTrianglesArgs,
      (∀ a1 ∈ l, ∀ a2 ∈ l, a1.key = a2.key → a1.vertex_type_id = a2.vertex_type_id) →
      ∃ s', applyPushTrianglesSeq RenderDataBatchStorage.empty l = some s') := by
  constructor
  · intro s a i b hm hb hne
    rw [applyPT_found hm hb, if_neg hne]
  · intro l hcol
    have hL : LayoutConsistent l RenderDataBatchStorage.empty := by
      intro k i hm
      exact absurd hm (by simp [RenderDataBatchStorage.empty, mapFind])
    obtain ⟨s', h, _⟩ := applyPTSeq_total_from hcol l (fun a ha => ha)
      RenderDataBatchStorage.empty hL
    exact ⟨s', h⟩

/-- A storage whose only batch stores vertex layout 99, mapped under
`wPT2`'s key, used to exhibit the panic branch. -/
def wBadStorage : RenderDataBatchStorage :=
  ⟨[(wPT2.key, 0)],
   [{ data := ⟨0, ⟨⟨99, []⟩, ⟨[]⟩⟩⟩
      time_to_live := ⟨0⟩
      instances := [dummyInstance]
      material := ⟨2⟩
      is_skinned := false
      render_path := RenderPath.Deferred
      decal_layer_index := 0
      sort_index := 0 }], 0⟩

theorem c9_witness :
    applyPushTriangles wBadStorage wPT2 = none ∧
    (∃ s', applyPushTrianglesSeq RenderDataBatchStorage.empty [wPT1, wPT2] = some s') :=
  ⟨c9_mismatch_panics_unreachable_without_collision.1 wBadStorage wPT2 0
      (wBadStorage.batches.get ⟨0, by decide⟩) rfl rfl (by decide),
   c9_mismatch_panics_unreachable_without_collision.2 [wPT1, wPT2] (by decide)⟩

/-! ## Claim C3 -/

/-- Every batch of the storage has at least one instance. -/
def AllNonEmpty (s : RenderDataBatchStorage) : Prop :=
  ∀ b ∈ s.batches, 1 ≤ b.instances.length

theorem mem_listModify {f : α → α} {i : Nat} {l : List α} {b : α}
    (h : b ∈ listModify f i l) : b ∈ l ∨ ∃ x ∈ l, b = f x := by
  induction l generalizing i with
  | nil => simp [listModify] at h
  | cons x t ih =>
    cases i with
    | zero =>
      rcases List.mem_cons.mp h with rfl | hm
      · exact Or.inr ⟨x, List.mem_cons_self _ _, rfl⟩
      · exact Or.inl (List.mem_cons_of_mem _ hm)
    | succ i =>
      rcases List.mem_cons.mp h with rfl | hm
      · exact Or.inl (List.mem_cons_self _ _)
      · rcases ih hm with hm' | ⟨y, hy, he⟩
        · exact Or.inl (List.mem_cons_of_mem _ hm')
        · exact Or.inr ⟨y, List.mem_cons_of_mem _ hy, he⟩

theorem allNonEmpty_applyPush {s : RenderDataBatchStorage} (hs : AllNonEmpty s)
    (a : PushArgs) : AllNonEmpty (applyPush s a) := by
  intro b hb
  cases hm : mapFind s.batch_map a.key with
  | some i =>
    rw [applyPush_found hm] at hb
    rcases mem_listModify hb with hb' | ⟨x, hx, rfl⟩
    · exact hs b hb'
    · simp
  | none =>
    rw [applyPush_new hm] at hb
    rcases List.mem_append.mp hb with hb' | hb'
    · exact hs b hb'
    · rcases List.mem_singleton.mp hb' with rfl
      simp [pushCreatedBatch]

theorem allNonEmpty_applyPT {s s' : RenderDataBatchStorage}
    {a : PushTrianglesArgs} (h : applyPushTriangles s a = some s')
    (hs : AllNonEmpty s) : AllNonEmpty s' := by
  intro b hb
  cases hm : mapFind s.batch_map a.key with
  | some i =>
    cases hg : s.batches.get? i with
    | none =>
      rw [applyPushTriangles, RenderDataBatchStorage.push_triangles] at h
      simp only [show pushTrianglesKey a.material a.vertex_type_id a.is_skinned
        a.decal_layer_index a.render_path = a.key from rfl, hm, hg] at h
      exact Option.noConfusion h
    | some b0 =>
      have h2 := applyPT_found hm hg
      rw [h] at h2
      by_cases hlay : b0.data.surface.vertex_buffer.layout = a.vertex_type_id
      · rw [if_pos hlay] at h2
        have hs' := Option.some.inj h2
        rw [hs'] at hb
        rcases mem_listModify hb with hb' | ⟨x, hx, rfl⟩
        · exact hs b hb'
        · exact hs x hx
      · rw [if_neg hlay] at h2
        exact absurd h2.symm (Option.noConfusion)
  | none =>
    have h2 := applyPT_new hm
    rw [h] at h2
    have hs' := Option.some.inj h2
    rw [hs'] at hb
    rcases List.mem_append.mp hb with hb' | hb'
    · exact hs b hb'
    · rcases List.mem_singleton.mp hb' with rfl
      simp [appendGeometry, ptCreatedBatch]

theorem allNonEmpty_applyOp {s s' : RenderDataBatchStorage} {op : StorageOp}
    (h : applyOp s op = some s') (hs : AllNonEmpty s) : AllNonEmpty s' := by
  cases op with
  | push a =>
    have := Option.some.inj h
    rw [← this]
    exact allNonEmpty_applyPush hs a
  | pushTriangles a => exact allNonEmpty_applyPT h hs

theorem allNonEmpty_applyOps {ops : List StorageOp} :
    ∀ {s s' : RenderDataBatchStorage}, applyOps s ops = some s' →
    AllNonEmpty s → AllNonEmpty s' := by
  induction ops with
  | nil =>
    intro s s' h hs
    rw [← Option.some.inj h]
    exact hs
  | cons op t ih =>
    intro s s' h hs
    rw [applyOps, List.foldlM_cons] at h
    cases hop : applyOp s op with
    | none => rw [hop] at h; exact absurd h (by simp)
    | some s1 =>
      rw [hop] at h
      exact ih h (allNonEmpty_applyOp hop hs)

theorem allNonEmpty_sort {s : RenderDataBatchStorage} (hs : AllNonEmpty s) :
    AllNonEmpty s.sort := by
  intro b hb
  exact hs b ((List.mergeSort_perm s.batches _).mem_iff.mp hb)

/-- C3: after every completed storage operation — `push`,
`push_triangles`, or a whole `from_graph` — every batch in the storage
holds at least one instance. -/
theorem c3_batches_never_empty :
    (∀ (s : RenderDataBatchStorage) (a : PushArgs),
      AllNonEmpty s → AllNonEmpty (applyPush s a)) ∧
    (∀ (s s' : RenderDataBatchStorage) (a : PushTrianglesArgs),
      applyPushTriangles s a = some s' → AllNonEmpty s → AllNonEmpty s') ∧
    (∀ (collect : Handle → GraphNode → List StorageOp) (g : Graph) (o : ObserverInfo)
        (s' : RenderDataBatchStorage),
      from_graph collect g o = some s' → AllNonEmpty s') := by
  refine ⟨fun s a hs => allNonEmpty_applyPush hs a,
    fun s s' a h hs => allNonEmpty_applyPT h hs, ?_⟩
  intro collect g o s' h
  rw [from_graph] at h
  cases hops : applyOps RenderDataBatchStorage.empty
      ((g.pair_iter.filter (fun p => (lodFilter g o).getD p.1.index true)).flatMap
        (fun p => collect p.1 p.2)) with
  | none => rw [hops] at h; exact absurd h (by simp)
  | some s0 =>
    rw [hops] at h
    have hs0 : AllNonEmpty s0 :=
      allNonEmpty_applyOps hops (by intro b hb; simp [RenderDataBatchStorage.empty] at hb)
    rw [← Option.some.inj h]
    exact allNonEmpty_sort hs0

/-- A concrete observer (position at the origin, near 0, far 10). -/
def wObserver : ObserverInfo := ⟨(0, 0, 0), 0, 10, fun _ _ => 0, fun _ _ => 0⟩

/-- The storage produced by `push_triangles` of `wPT1` on the empty
storage. -/
def wPTResult : RenderDataBatchStorage :=
  ⟨[(wPT1.key, 0)],
   [appendGeometry wPT1.vertices wPT1.local_triangles 0
     (ptCreatedBatch RenderDataBatchStorage.empty wPT1)], 1⟩

theorem c3_witness :
    AllNonEmpty (applyPush RenderDataBatchStorage.empty wA) ∧
    AllNonEmpty wPTResult ∧
    AllNonEmpty RenderDataBatchStorage.empty.sort :=
  ⟨c3_batches_never_empty.1 RenderDataBatchStorage.empty wA
      (by intro b hb; simp [RenderDataBatchStorage.empty] at hb),
   c3_batches_never_empty.2.1 RenderDataBatchStorage.empty wPTResult wPT1 rfl
      (by intro b hb; simp [RenderDataBatchStorage.empty] at hb),
   c3_batches_never_empty.2.2 (fun _ _ => []) ⟨[]⟩ wObserver
      RenderDataBatchStorage.empty.sort rfl⟩

/-! ## Claim C7 -/

theorem flatMap_congr_mem {l : List α} {f g : α → List β}
    (h : ∀ a ∈ l, f a = g a) : l.flatMap f = l.flatMap g := by
  induction l with
  | nil => simp
  | cons x t ih =>
    rw [List.flatMap_cons, List.flatMap_cons, h x (List.mem_cons_self _ _),
      ih (fun a ha => h a (List.mem_cons_of_mem _ ha))]

/-- C7: `from_graph` never invokes the contribution routine of a node
whose LOD-filter bit is false — the storage it produces is the same for
any two contribution interfaces that agree on the filter-true nodes, so a
filtered-out node adds no batches and no instances. -/
theorem c7_filtered_nodes_contribute_nothing (g : Graph) (o : ObserverInfo)
    (c1 c2 : Handle → GraphNode → List StorageOp)
    (h : ∀ p ∈ g.pair_iter, (lodFilter g o).getD p.1.index true = true →
      c1 p.1 p.2 = c2 p.1 p.2) :
    from_graph c1 g o = from_graph c2 g o := by
  rw [from_graph, from_graph]
  have he : (g.pair_iter.filter
        (fun p => (lodFilter g o).getD p.1.index true)).flatMap
        (fun p => c1 p.1 p.2) =
      (g.pair_iter.filter
        (fun p => (lodFilter g o).getD p.1.index true)).flatMap
        (fun p => c2 p.1 p.2) := by
    apply flatMap_congr_mem
    intro p hp
    have hm := List.mem_filter.mp hp
    exact h p hm.1 hm.2
  rw [he]

/-- The LOD level of the witness graph: range [0.2, 0.6] governing slot 1. -/
def wLevel : LevelOfDetail := ⟨0.2, 0.6, [⟨1, 0⟩]⟩

/-- Witness node 0: carries the LOD group. -/
def wNode0 : GraphNode := ⟨(1, 0, 0), some ⟨[wLevel]⟩⟩

/-- Witness node 1: at the observer's position (distance 0, normalized 0,
outside [0.2, 0.6] — its filter bit is false). -/
def wNode1 : GraphNode := ⟨(0, 0, 0), none⟩

/-- The witness graph: two occupied slots. -/
def wGraph : Graph := ⟨[⟨0, some wNode0⟩, ⟨0, some wNode1⟩]⟩

/-- A contribution interface that would have node 1 push an instance. -/
def wCollectA : Handle → GraphNode → List StorageOp :=
  fun h _ => if h.index = 1 then [StorageOp.push wA] else []

/-- The silent contribution interface. -/
def wCollectB : Handle → GraphNode → List StorageOp := fun _ _ => []

theorem wNode1_not_visible : lodVisible wObserver wLevel wNode1 = false := by
  simp only [lodVisible, metric_distance, wObserver, wLevel, wNode1]
  norm_num [Real.sqrt_zero]

theorem c7_witness :
    from_graph wCollectA wGraph wObserver = from_graph wCollectB wGraph wObserver := by
  apply c7_filtered_nodes_contribute_nothing
  intro p hp htrue
  have hpair : wGraph.pair_iter = [(⟨0, 0⟩, wNode0), (⟨1, 0⟩, wNode1)] := rfl
  rw [hpair] at hp
  rcases List.mem_cons.mp hp with rfl | hp'
  · rfl
  · rcases List.mem_singleton.mp hp' with rfl
    have hfilter : lodFilter wGraph wObserver =
        [true, lodVisible wObserver wLevel wNode1] := rfl
    rw [hfilter] at htrue
    simp only [List.getD, List.get?] at htrue
    rw [wNode1_not_visible] at htrue
    exact Bool.noConfusion htrue

/-! ## Claim C6 -/

/-- The flat sequence of (slot, flag) writes the LOD filter loop performs,
in iteration order: for each node owning an LOD group, for each level, for
each validly referenced object, the spec's visibility flag for that
object's slot. -/
noncomputable def lodWrites (g : Graph) (o : ObserverInfo) : List (Nat × Bool) :=
  g.linear_iter.flatMap (fun node =>
    match node.lod_group with
    | none => []
    | some lod_group =>
      lod_group.levels.flatMap (fun level =>
        level.objects.filterMap (fun object =>
          (g.try_get object).map (fun r => (object.index, lodVisible o level r)))))

/-- The last write a sequence of (slot, flag) writes makes to slot `i`. -/
def lastWrite (ws : List (Nat × Bool)) (i : Nat) : Option Bool :=
  ((ws.filter (fun w => w.1 = i)).getLast?).map Prod.snd

theorem foldl_flatMap (f : β → α → β) (h : γ → List α) (l : List γ) (init : β) :
    (l.flatMap h).foldl f init = l.foldl (fun acc c => (h c).foldl f acc) init := by
  induction l generalizing init with
  | nil => simp
  | cons x t ih => simp [List.flatMap_cons, List.foldl_append, ih]

theorem foldl_filterMap (f : β → α → β) (h : γ → Option α) (l : List γ) (init : β) :
    (l.filterMap h).foldl f init =
      l.foldl (fun acc c => match h c with | none => acc | some a => f acc a) init := by
  induction l generalizing init with
  | nil => simp
  | cons x t ih =>
    cases hx : h x <;> simp [List.filterMap_cons, hx, ih]

/-- The nested LOD filter loops are the flat write sequence folded over
the default-true slot array. -/
theorem lodFilter_eq_foldl_writes (g : Graph) (o : ObserverInfo) :
    lodFilter g o = (lodWrites g o).foldl (fun acc w => acc.set w.1 w.2)
      (List.replicate g.capacity true) := by
  rw [lodWrites, foldl_flatMap, lodFilter]
  congr 1
  funext acc node
  cases hn : node.lod_group with
  | none => simp
  | some grp =>
    simp only
    rw [foldl_flatMap]
    congr 1
    funext acc' level
    rw [foldl_filterMap]
    congr 1
    funext acc'' object
    cases ho : g.try_get object <;> simp

theorem foldl_set_get? (ws : List (Nat × Bool)) :
    ∀ (init : List Bool) (i : Nat), i < init.length →
    ((ws.foldl (fun acc w => acc.set w.1 w.2) init).get? i) =
      some ((lastWrite ws i).getD (init.getD i true)) := by
  induction ws with
  | nil =>
    intro init i h
    rw [List.foldl_nil]
    simp [lastWrite, List.getD, List.get?_eq_getElem?, List.getElem?_eq_getElem, h]
  | cons w ws ih =>
    intro init i h
    obtain ⟨j, v⟩ := w
    rw [List.foldl_cons]
    rw [ih (init.set j v) i (by simpa using h)]
    by_cases hji : j = i
    · subst hji
      have hset : (init.set j v).getD j true = v := by
        simp [List.getD, List.get?_eq_getElem?, List.getElem?_set, h]
      cases hlw : ws.filter (fun w => w.1 = j) with
      | nil =>
        have h1 : lastWrite ws j = none := by simp [lastWrite, hlw]
        have h2 : lastWrite ((j, v) :: ws) j = some v := by
          rw [lastWrite, List.filter_cons, if_pos (by simp), hlw]
          rfl
        rw [h1, h2, hset]
        rfl
      | cons p t =>
        have h1 : lastWrite ws j = ((p :: t).getLast?).map Prod.snd := by
          rw [lastWrite, hlw]
        have h2 : lastWrite ((j, v) :: ws) j = ((p :: t).getLast?).map Prod.snd := by
          rw [lastWrite, List.filter_cons, if_pos (by simp), hlw,
            List.getLast?_cons_cons]
        rw [h1, h2]
        cases hg : ((p :: t).getLast?).map Prod.snd with
        | none => simp at hg
        | some c => rfl
    · have hset : (init.set j v).getD i true = init.getD i true := by
        simp [List.getD, List.get?_eq_getElem?, List.getElem?_set, hji]
      have h2 : lastWrite ((j, v) :: ws) i = lastWrite ws i := by
        rw [lastWrite, lastWrite, List.filter_cons]
        simp [hji]
      rw [hset, h2]

/-- C6: the LOD filter assigns to every slot the flag of the last
(node, level, object) write targeting it — the spec's inclusive
normalized-distance range test — and slots never written keep the default
`true`; at near 0 / far 10 with range [0.2, 0.6], an object at distance 3
is visible and an object at distance 8 is not. -/
theorem c6_lod_filter_last_write_wins :
    (∀ (g : Graph) (o : ObserverInfo) (i : Nat), i < g.capacity →
      (lodFilter g o).get? i = some ((lastWrite (lodWrites g o) i).getD true)) ∧
    lodVisible wObserver wLevel ⟨(3, 0, 0), none⟩ = true ∧
    lodVisible wObserver wLevel ⟨(8, 0, 0), none⟩ = false := by
  refine ⟨?_, ?_, ?_⟩
  · intro g o i h
    rw [lodFilter_eq_foldl_writes,
      foldl_set_get? _ _ i (by simpa using h)]
    have hrep : (List.replicate g.capacity true).getD i true = true := by
      simp [List.getD, List.getElem?_replicate, h]
    rw [hrep]
  · have h9 : Real.sqrt (9 : ℝ) = 3 := by
      rw [show (9 : ℝ) = 3 ^ 2 by norm_num]
      exact Real.sqrt_sq (by norm_num)
    simp only [lodVisible, metric_distance, wObserver, wLevel]
    norm_num [h9]
  · have h8 : Real.sqrt (64 : ℝ) = 8 := by
      rw [show (64 : ℝ) = 8 ^ 2 by norm_num]
      exact Real.sqrt_sq (by norm_num)
    simp only [lodVisible, metric_distance, wObserver, wLevel]
    norm_num [h8]

theorem c6_witness :
    (lodFilter wGraph wObserver).get? 0 =
      some ((lastWrite (lodWrites wGraph wObserver) 0).getD true) :=
  c6_lod_filter_last_write_wins.1 wGraph wObserver 0 (by decide)
